import Mathlib

/-! Verification of the JazzScript bytecode virtual machine core
(src/vm/mod.rs, src/vm/value.rs): a shallow embedding of the value
universe, the shared-mutable heap, the environment chain, and the
Frame dispatch loop, together with theorems about the claims of the
specification.

Modelling conventions:
* Shared mutable references (the Rust `Ref<T>` / `Gc<T>` cells) are heap
  addresses into an explicit allocation list; allocation appends.
* The 64-bit float payload of `Number` is modelled as an exact rational.
  Every computation the theorems below perform stays on small integers,
  where f64 arithmetic is exact.  The IEEE special values (NaN, the
  infinities) have no rational representative; the few operations that can
  produce them (division by zero, negating a non-number) are noted at
  their definitions and are exercised by no theorem.
* Structural recursion through the heap (equality, ordering, display of
  aggregates) is bounded by a fuel parameter.  On the acyclic structures
  the machine builds, `heap length + 1` fuel always suffices (a containment
  path cannot repeat an address without forming a cycle); on a cyclic
  structure the Rust code itself recurses forever, and the model returns a
  default at fuel exhaustion.
-/

set_option maxHeartbeats 1000000
set_option synthInstance.maxHeartbeats 1000000
set_option linter.unnecessarySeqFocus false

namespace JazzVM

/-- A heap address: models one shared reference cell. -/
abbrev Addr := Nat

/-- Bytecode opcodes as consumed by `Frame::execute` (src/vm/mod.rs).  The
enum itself lives in vm/opcodes.rs; its variants and payloads are fixed by
the dispatcher's match arms.  Payload integers are modelled at their
mathematical value. -/
inductive Opcode where
  | NewIter
  | IterHasNext
  | IterNext
  | LoadConst (i : Nat)
  | LoadInt (i : Int)
  | LoadTrue
  | LoadFalse
  | LoadNil
  | LoadUndef
  | LoadVar (name : String)
  | DeclVar (name : String)
  | StoreVar (name : String)
  | Dup
  | ConstructArray (n : Nat)
  | Store
  | NewObj
  | Load
  | Return
  | Yield
  | PushCatch (addr : Nat)
  | PopCatch
  | Throw
  | Apply
  | Call (argc : Nat)
  | Jump (t : Nat)
  | JumpIf (t : Nat)
  | JumpIfFalse (t : Nat)
  | RefEq
  | RefNeq
  | InitEnv
  | PushEnv
  | PopEnv
  | Label
  | Add
  | Sub
  | Div
  | Mul
  | Rem
  | Shl
  | Shr
  | BitAnd
  | BitOr
  | BitXor
  | And
  | Or
  | Gt
  | Ge
  | Lt
  | Le
  | Eq
  | Ne
  | Not
  | Neg
  | BlockEnd

/-- Injective encoding of an opcode as its constructor tag and payloads.
It exists only to decide opcode equality through two linear matches
instead of the quadratic double match a derived DecidableEq builds. -/
def Opcode.encode : Opcode → Nat × Nat × Int × String
  | .NewIter => (0, 0, 0, "")
  | .IterHasNext => (1, 0, 0, "")
  | .IterNext => (2, 0, 0, "")
  | .LoadConst x => (3, x, 0, "")
  | .LoadInt x => (4, 0, x, "")
  | .LoadTrue => (5, 0, 0, "")
  | .LoadFalse => (6, 0, 0, "")
  | .LoadNil => (7, 0, 0, "")
  | .LoadUndef => (8, 0, 0, "")
  | .LoadVar x => (9, 0, 0, x)
  | .DeclVar x => (10, 0, 0, x)
  | .StoreVar x => (11, 0, 0, x)
  | .Dup => (12, 0, 0, "")
  | .ConstructArray x => (13, x, 0, "")
  | .Store => (14, 0, 0, "")
  | .NewObj => (15, 0, 0, "")
  | .Load => (16, 0, 0, "")
  | .Return => (17, 0, 0, "")
  | .Yield => (18, 0, 0, "")
  | .PushCatch x => (19, x, 0, "")
  | .PopCatch => (20, 0, 0, "")
  | .Throw => (21, 0, 0, "")
  | .Apply => (22, 0, 0, "")
  | .Call x => (23, x, 0, "")
  | .Jump x => (24, x, 0, "")
  | .JumpIf x => (25, x, 0, "")
  | .JumpIfFalse x => (26, x, 0, "")
  | .RefEq => (27, 0, 0, "")
  | .RefNeq => (28, 0, 0, "")
  | .InitEnv => (29, 0, 0, "")
  | .PushEnv => (30, 0, 0, "")
  | .PopEnv => (31, 0, 0, "")
  | .Label => (32, 0, 0, "")
  | .Add => (33, 0, 0, "")
  | .Sub => (34, 0, 0, "")
  | .Div => (35, 0, 0, "")
  | .Mul => (36, 0, 0, "")
  | .Rem => (37, 0, 0, "")
  | .Shl => (38, 0, 0, "")
  | .Shr => (39, 0, 0, "")
  | .BitAnd => (40, 0, 0, "")
  | .BitOr => (41, 0, 0, "")
  | .BitXor => (42, 0, 0, "")
  | .And => (43, 0, 0, "")
  | .Or => (44, 0, 0, "")
  | .Gt => (45, 0, 0, "")
  | .Ge => (46, 0, 0, "")
  | .Lt => (47, 0, 0, "")
  | .Le => (48, 0, 0, "")
  | .Eq => (49, 0, 0, "")
  | .Ne => (50, 0, 0, "")
  | .Not => (51, 0, 0, "")
  | .Neg => (52, 0, 0, "")
  | .BlockEnd => (53, 0, 0, "")

/-- Partial inverse of Opcode.encode. -/
def Opcode.decode : Nat × Nat × Int × String → Option Opcode
  | (0, _, _, _) => some .NewIter
  | (1, _, _, _) => some .IterHasNext
  | (2, _, _, _) => some .IterNext
  | (3, x, _, _) => some (.LoadConst x)
  | (4, _, x, _) => some (.LoadInt x)
  | (5, _, _, _) => some .LoadTrue
  | (6, _, _, _) => some .LoadFalse
  | (7, _, _, _) => some .LoadNil
  | (8, _, _, _) => some .LoadUndef
  | (9, _, _, x) => some (.LoadVar x)
  | (10, _, _, x) => some (.DeclVar x)
  | (11, _, _, x) => some (.StoreVar x)
  | (12, _, _, _) => some .Dup
  | (13, x, _, _) => some (.ConstructArray x)
  | (14, _, _, _) => some .Store
  | (15, _, _, _) => some .NewObj
  | (16, _, _, _) => some .Load
  | (17, _, _, _) => some .Return
  | (18, _, _, _) => some .Yield
  | (19, x, _, _) => some (.PushCatch x)
  | (20, _, _, _) => some .PopCatch
  | (21, _, _, _) => some .Throw
  | (22, _, _, _) => some .Apply
  | (23, x, _, _) => some (.Call x)
  | (24, x, _, _) => some (.Jump x)
  | (25, x, _, _) => some (.JumpIf x)
  | (26, x, _, _) => some (.JumpIfFalse x)
  | (27, _, _, _) => some .RefEq
  | (28, _, _, _) => some .RefNeq
  | (29, _, _, _) => some .InitEnv
  | (30, _, _, _) => some .PushEnv
  | (31, _, _, _) => some .PopEnv
  | (32, _, _, _) => some .Label
  | (33, _, _, _) => some .Add
  | (34, _, _, _) => some .Sub
  | (35, _, _, _) => some .Div
  | (36, _, _, _) => some .Mul
  | (37, _, _, _) => some .Rem
  | (38, _, _, _) => some .Shl
  | (39, _, _, _) => some .Shr
  | (40, _, _, _) => some .BitAnd
  | (41, _, _, _) => some .BitOr
  | (42, _, _, _) => some .BitXor
  | (43, _, _, _) => some .And
  | (44, _, _, _) => some .Or
  | (45, _, _, _) => some .Gt
  | (46, _, _, _) => some .Ge
  | (47, _, _, _) => some .Lt
  | (48, _, _, _) => some .Le
  | (49, _, _, _) => some .Eq
  | (50, _, _, _) => some .Ne
  | (51, _, _, _) => some .Not
  | (52, _, _, _) => some .Neg
  | (53, _, _, _) => some .BlockEnd
  | _ => none

instance : DecidableEq Opcode := fun a b =>
  decidable_of_iff (Opcode.encode a = Opcode.encode b)
    ⟨fun h => Option.some.inj (by
        have ha : Opcode.decode (Opcode.encode a) = some a := by cases a <;> rfl
        have hb : Opcode.decode (Opcode.encode b) = some b := by cases b <;> rfl
        rw [← ha, h, hb]),
      congrArg _⟩


/-- The tagged value universe (enum ValueData, src/vm/value.rs).  `Object`,
`Array`, `Function` and `Iterator` carry a shared reference, modelled as a
heap address; `String` is value-copied.  The `Iterator` variant appears in
the dispatcher (src/vm/mod.rs) though the draft value.rs in the snapshot
predates it. -/
inductive ValueData where
  | nil
  | undefined
  | bool (b : Bool)
  | num (x : ℚ)
  | str (s : String)
  | object (a : Addr)
  | array (a : Addr)
  | function (a : Addr)
  | iterator (a : Addr)
deriving DecidableEq

/-- An Object: insertion-ordered table from full ValueData keys to value
cells, plus an optional prototype reference (struct Object,
src/vm/value.rs:318). -/
structure Object where
  proto : Option Addr
  table : List (ValueData × Addr)
deriving DecidableEq

/-- The payload of a Regular function (enum Function, src/vm/value.rs:127,
together with the `yield_env` and `constants` fields the dispatcher in
src/vm/mod.rs reads and writes). -/
structure RegularFn where
  environment : Addr
  code : List Opcode
  addr : Nat
  yield_pos : Option Nat
  args : List String
  yield_env : Addr
  constants : List ValueData
deriving DecidableEq

/-- A function value: host-native entry point (opaque to this model) or a
Regular bytecode function. -/
inductive Function where
  | Native (id : Nat)
  | Regular (f : RegularFn)
deriving DecidableEq

/-- One heap cell: a value cell (`Ref<ValueData>`), an object, an array
(`Ref<Vec<Value>>`, a vector of value-cell references), a function cell, or
an iterator's remaining-values list. -/
inductive Cell where
  | val (v : ValueData)
  | obj (o : Object)
  | arr (xs : List Addr)
  | fn (f : Function)
  | iter (xs : List Addr)
deriving DecidableEq

/-- The heap: a list of cells, addressed by position.  Reads of a dangling
address return a default (unreachable in machine runs: every address the
machine stores was allocated). -/
abbrev Heap := List Cell

def Heap.read (h : Heap) (a : Addr) : Cell := h.getD a (Cell.val ValueData.undefined)

def Heap.write (h : Heap) (a : Addr) (c : Cell) : Heap := h.set a c

def Heap.alloc (h : Heap) (c : Cell) : Heap × Addr := (h ++ [c], h.length)

def Heap.readVal (h : Heap) (a : Addr) : ValueData :=
  match h.read a with
  | .val v => v
  | _ => .undefined

def Heap.readObj (h : Heap) (a : Addr) : Object :=
  match h.read a with
  | .obj o => o
  | _ => ⟨none, []⟩

def Heap.readArr (h : Heap) (a : Addr) : List Addr :=
  match h.read a with
  | .arr xs => xs
  | _ => []

def Heap.readFn (h : Heap) (a : Addr) : Function :=
  match h.read a with
  | .fn f => f
  | _ => .Native 0

def Heap.readIter (h : Heap) (a : Addr) : List Addr :=
  match h.read a with
  | .iter xs => xs
  | _ => []

/-- Fuel that always suffices for structural recursion through an acyclic
heap: one more than the number of cells. -/
def eqFuel (h : Heap) : Nat := h.length + 1

mutual
/-- Structural equality of values (impl PartialEq for ValueData,
src/vm/value.rs:246): exact on scalars, recursive through the heap for
Array (element-wise on the pointed-to data) and Object.  Mixed types are
unequal. -/
def vdBeq (h : Heap) : Nat → ValueData → ValueData → Bool
  | 0, _, _ => false
  | fuel+1, a, b =>
    match a, b with
    | .num x, .num y => x == y
    | .nil, .nil => true
    | .undefined, .undefined => true
    | .str x, .str y => x == y
    | .object x, .object y => objBeq h fuel (h.readObj x) (h.readObj y)
    | .array x, .array y =>
      let xs := h.readArr x
      let ys := h.readArr y
      xs.length == ys.length &&
        (List.zip xs ys).all fun p => vdBeq h fuel (h.readVal p.1) (h.readVal p.2)
    | .bool x, .bool y => x == y
    | _, _ => false
termination_by fuel _ _ => (fuel, 0, 0)

/-- Object equality (impl PartialEq for Object, src/vm/value.rs:419): the
tables agree as insertion-ordered maps (same size, each key of the left
found in the right with an equal value — the hashlink map's equality), and
the prototypes agree recursively. -/
def objBeq (h : Heap) : Nat → Object → Object → Bool
  | 0, _, _ => false
  | fuel+1, x, y =>
    (x.table.length == y.table.length &&
      x.table.all fun kv =>
        match tableLookup h fuel y.table kv.1 with
        | some v2 => vdBeq h fuel (h.readVal kv.2) (h.readVal v2)
        | none => false) &&
    (match x.proto, y.proto with
     | some p, some q => objBeq h fuel (h.readObj p) (h.readObj q)
     | none, none => true
     | _, _ => false)
termination_by fuel _ _ => (fuel, 2, 0)

/-- Key lookup in an object's table, comparing keys by structural value
equality (the map's Hash+Eq on ValueData). -/
def tableLookup (h : Heap) (fuel : Nat) : List (ValueData × Addr) → ValueData → Option Addr
  | [], _ => none
  | (k2, v) :: rest, k =>
    if vdBeq h fuel k k2 then some v else tableLookup h fuel rest k
termination_by t _ => (fuel, 1, t.length + 1)
end

/-- Insert into an object's table: an existing structurally-equal key keeps
its position (and its stored key) and only the value slot is replaced; a
new key is appended (the linked hash map's insert). -/
def tableInsert (h : Heap) (fuel : Nat) : List (ValueData × Addr) → ValueData → Addr → List (ValueData × Addr)
  | [], k, v => [(k, v)]
  | (k2, v2) :: rest, k, v =>
    if vdBeq h fuel k k2 then (k2, v) :: rest else (k2, v2) :: tableInsert h fuel rest k v

/-- Display of a rational Number, matching Rust's `{}` on f64 at integral
values ("7", "-7"); non-integral display is not exercised by any theorem. -/
def numStr (x : ℚ) : String :=
  if x.den = 1 then toString x.num else toString x

mutual
/-- Display of a value (impl fmt::Display for ValueData,
src/vm/value.rs:206), recursive through the heap for aggregates.  The
Iterator arm is absent from the draft value.rs; it is unreachable in every
theorem below. -/
def vdStr (h : Heap) : Nat → ValueData → String
  | 0, _ => ""
  | fuel+1, v =>
    match v with
    | .bool b => if b then "true" else "false"
    | .num x => numStr x
    | .function _ => "<function>"
    | .nil => "nil"
    | .undefined => "undefined"
    | .str s => s
    | .object a =>
      "\x7b" ++ String.intercalate "," (((h.readObj a).table).map fun kv =>
        vdStr h fuel kv.1 ++ ": " ++ vdStr h fuel (h.readVal kv.2)) ++ "\x7d"
    | .array a =>
      "[" ++ String.intercalate "," ((h.readArr a).map fun e =>
        vdStr h fuel (h.readVal e)) ++ "]"
    | .iterator _ => "<iterator>"
termination_by fuel _ => (fuel, 0)
end

mutual
/-- Partial comparison (impl PartialOrd for ValueData, src/vm/value.rs:269):
defined within Number, String, Bool, and recursively for Array
(lexicographic on elements, then length) and Object (lexicographic on the
tables' (key, value) pairs in insertion order); every mixed pair is
incomparable. -/
def vdCmp (h : Heap) : Nat → ValueData → ValueData → Option Ordering
  | 0, _, _ => none
  | fuel+1, a, b =>
    match a, b with
    | .num x, .num y => some (compare x y)
    | .array x, .array y => listCmp h fuel (h.readArr x) (h.readArr y)
    | .object x, .object y => pairsCmp h fuel (h.readObj x).table (h.readObj y).table
    | .str x, .str y => some (compare x y)
    | .bool x, .bool y => some (compare x y)
    | _, _ => none
termination_by fuel _ _ => (fuel, 0, 0)

/-- Lexicographic comparison of two vectors of value cells (Vec's
PartialOrd through the references). -/
def listCmp (h : Heap) : Nat → List Addr → List Addr → Option Ordering
  | 0, _, _ => none
  | _+1, [], [] => some .eq
  | _+1, [], _ :: _ => some .lt
  | _+1, _ :: _, [] => some .gt
  | fuel+1, x :: xs, y :: ys =>
    match vdCmp h fuel (h.readVal x) (h.readVal y) with
    | some .eq => listCmp h fuel xs ys
    | r => r
termination_by fuel _ _ => (fuel, 1, 0)

/-- Lexicographic comparison of two tables as (key, value) pair sequences
in insertion order, key first. -/
def pairsCmp (h : Heap) : Nat → List (ValueData × Addr) → List (ValueData × Addr) → Option Ordering
  | 0, _, _ => none
  | _+1, [], [] => some .eq
  | _+1, [], _ :: _ => some .lt
  | _+1, _ :: _, [] => some .gt
  | fuel+1, (k1, v1) :: xs, (k2, v2) :: ys =>
    match vdCmp h fuel k1 k2 with
    | some .eq =>
      match vdCmp h fuel (h.readVal v1) (h.readVal v2) with
      | some .eq => pairsCmp h fuel xs ys
      | r => r
    | r => r
termination_by fuel _ _ => (fuel, 2, 0)
end

/-- Truthiness coercion (impl From ValueData for bool, src/vm/value.rs:87).
A Number is falsy exactly when its floor is zero; Bool is itself; the
catch-all arm makes Nil, Undefined AND every aggregate (String, Object,
Array, Function, Iterator) falsy. -/
def vToBool : ValueData → Bool
  | .num x => if x.floor = 0 then false else true
  | .bool b => b
  | .nil => false
  | _ => false

/-- Largest i64. -/
def i64Max : Int := 9223372036854775807

/-- Smallest i64. -/
def i64Min : Int := -9223372036854775808

/-- Rust's saturating float-to-i64 `as` cast applied to an integer. -/
def satI64 (t : Int) : Int :=
  if t < i64Min then i64Min else if i64Max < t then i64Max else t

/-- Truncation of a rational toward zero (the rounding of an `as i64`
cast). -/
def ratTrunc (x : ℚ) : Int :=
  if 0 ≤ x then x.floor else x.ceil

/-- The i64 coercion (impl From ValueData for i64, src/vm/value.rs:65):
Numbers truncate (saturating at the i64 range), Nil and Undefined give 0,
everything else gives i64::MAX. -/
def vToI64 : ValueData → Int
  | .num x => satI64 (ratTrunc x)
  | .nil => 0
  | .undefined => 0
  | _ => i64Max

/-- Two's-complement view of an i64 as a Nat in [0, 2^64). -/
def toU64 (t : Int) : Nat := (t % 18446744073709551616).toNat

/-- Back from the two's-complement view. -/
def ofU64 (n : Nat) : Int :=
  if n < 9223372036854775808 then (n : Int) else (n : Int) - 18446744073709551616

/-- i64 bitwise AND via the two's-complement views. -/
def i64And (a b : Int) : Int := ofU64 ((toU64 a).land (toU64 b))

/-- i64 bitwise OR. -/
def i64Or (a b : Int) : Int := ofU64 ((toU64 a).lor (toU64 b))

/-- i64 bitwise XOR. -/
def i64Xor (a b : Int) : Int := ofU64 ((toU64 a).xor (toU64 b))

/-- i64 left shift: the count is masked to its low 6 bits (the release-mode
behaviour of the Rust shift; a count outside 0..63 panics in debug builds
and is exercised by no theorem), the result wraps in 64 bits. -/
def i64Shl (a b : Int) : Int := ofU64 ((toU64 a) <<< ((toU64 b) % 64) % 18446744073709551616)

/-- i64 arithmetic right shift, count masked as in `i64Shl`. -/
def i64Shr (a b : Int) : Int := Int.fdiv a (2 ^ ((toU64 b) % 64))

/-- Pure numeric binary operator lifting: Number on Number only, anything
else yields Undefined. -/
def numBin (a b : ValueData) (f : ℚ → ℚ → ℚ) : ValueData :=
  match a, b with
  | .num x, .num y => .num (f x y)
  | _, _ => .undefined

/-- Bitwise binary operator lifting (the Shl/Shr/BitAnd/BitOr/BitXor impls,
src/vm/value.rs:597): both operands floored and cast to i64, the i64 result
widened back to Number.  The widening `as f64` is exact up to 2^53, far
beyond anything a theorem here computes. -/
def i64Bin (a b : ValueData) (f : Int → Int → Int) : ValueData :=
  match a, b with
  | .num x, .num y => .num ((f (satI64 x.floor) (satI64 y.floor) : Int) : ℚ)
  | _, _ => .undefined

/-- The Add impl (src/vm/value.rs:530): numeric addition, array
concatenation into a freshly allocated array, string concatenation through
the other operand's display form; otherwise Undefined. -/
def addEval (h : Heap) (a b : ValueData) : Heap × ValueData :=
  match a, b with
  | .num x, .num y => (h, .num (x + y))
  | .array x, .array y =>
    let p := h.alloc (Cell.arr (h.readArr x ++ h.readArr y))
    (p.1, .array p.2)
  | .str x, v => (h, .str (x ++ vdStr h (eqFuel h) v))
  | v, .str x => (h, .str (vdStr h (eqFuel h) v ++ x))
  | _, _ => (h, .undefined)

/-- Truncated (Rust-style) remainder on rationals: x - y * trunc(x / y).
The source computes the f64 `%`; at y = 0 the source produces NaN, which
this rational model cannot express (no theorem divides by zero). -/
def ratRem (x y : ℚ) : ℚ := x - y * ((ratTrunc (x / y) : Int) : ℚ)

/-- The binary-operator table of the dispatcher's combined arm
(src/vm/mod.rs:765): given the popped left-hand and right-hand operand
data, produce the (possibly heap-extending) result.  Division by zero
yields an IEEE infinity or NaN in the source; the rational model leaves
that case (never exercised) at Lean's 0 convention. -/
def binOpEval (h : Heap) (op : Opcode) (lhs rhs : ValueData) : Heap × ValueData :=
  match op with
  | .Add => addEval h lhs rhs
  | .Sub => (h, numBin lhs rhs fun x y => x - y)
  | .Div => (h, numBin lhs rhs fun x y => x / y)
  | .Mul => (h, numBin lhs rhs fun x y => x * y)
  | .Rem => (h, numBin lhs rhs ratRem)
  | .Shl => (h, i64Bin lhs rhs i64Shl)
  | .Shr => (h, i64Bin lhs rhs i64Shr)
  | .BitAnd => (h, i64Bin lhs rhs i64And)
  | .BitOr => (h, i64Bin lhs rhs i64Or)
  | .BitXor => (h, i64Bin lhs rhs i64Xor)
  | .And => (h, .bool (vToBool lhs && vToBool rhs))
  | .Or => (h, .bool (vToBool lhs || vToBool rhs))
  | .Gt => (h, .bool (vdCmp h (eqFuel h) lhs rhs == some .gt))
  | .Lt => (h, .bool (vdCmp h (eqFuel h) lhs rhs == some .lt))
  | .Le => (h, .bool (vdCmp h (eqFuel h) lhs rhs == some .lt
                      || vdCmp h (eqFuel h) lhs rhs == some .eq))
  | .Ge => (h, .bool (vdCmp h (eqFuel h) lhs rhs == some .gt
                      || vdCmp h (eqFuel h) lhs rhs == some .eq))
  | .Eq => (h, .bool (vdBeq h (eqFuel h) lhs rhs))
  | .Ne => (h, .bool (!vdBeq h (eqFuel h) lhs rhs))
  | _ => (h, .undefined)

/-- Recognizes the opcodes of the dispatcher's combined binary-operator
arm (src/vm/mod.rs:765). -/
def Opcode.isBinary : Opcode → Bool
  | .Add | .Sub | .Div | .Mul | .Rem | .Shl | .Shr | .BitAnd | .BitOr
  | .BitXor | .And | .Or | .Gt | .Ge | .Lt | .Le | .Eq | .Ne => true
  | _ => false

/-- The unary Not arm (src/vm/mod.rs:794): Bool inverts, Number takes the
bitwise NOT of its floored i64 (widened back), Nil and Undefined give true,
everything else false. -/
def notEval : ValueData → ValueData
  | .bool b => .bool (!b)
  | .num x => .num (((-(satI64 x.floor) - 1 : Int) : ℚ))
  | .undefined => .bool true
  | .nil => .bool true
  | _ => .bool false

/-- The unary Neg arm (src/vm/mod.rs:805): -x on Number, 0 on Nil.  On any
other value the source produces the f64 NaN, which has no rational
representative; the model returns Undefined as a stand-in (no theorem
negates a non-number). -/
def negEval : ValueData → ValueData
  | .num x => .num (-x)
  | .nil => .num 0
  | _ => .undefined

/-- Object::set (src/vm/value.rs:392): allocates a fresh value cell for the
stored data and inserts it into the object's own table. -/
def objectSet (h : Heap) (oA : Addr) (k : ValueData) (v : ValueData) : Heap :=
  let p := h.alloc (Cell.val v)
  let o := p.1.readObj oA
  p.1.write oA (.obj { o with table := tableInsert p.1 (eqFuel p.1) o.table k p.2 })

/-- new_error (src/vm/value.rs:507): builds the error payload Object, in
source allocation order — the object, its prototype, the prototype's
`__name__` slot, then the object's `line`, `file` and `error` slots.  A
missing file stores Nil. -/
def new_error (h : Heap) (line : Int) (file : Option String) (err : String) : Heap × ValueData :=
  let p1 := h.alloc (Cell.obj ⟨none, []⟩)
  let p2 := p1.1.alloc (Cell.obj ⟨none, []⟩)
  let h3 := objectSet p2.1 p2.2 (.str "__name__") (.str "JLRuntimeError")
  let h4 := h3.write p1.2 (.obj { h3.readObj p1.2 with proto := some p2.2 })
  let h5 := objectSet h4 p1.2 (.str "line") (.num (line : ℚ))
  let h6 := objectSet h5 p1.2 (.str "file")
    (match file with | some s => .str s | none => .nil)
  let h7 := objectSet h6 p1.2 (.str "error") (.str err)
  (h7, .object p1.2)

/-- Object::get (src/vm/value.rs:395): the literal string key `__proto__`
returns the prototype (as a freshly allocated Object value, or Undefined);
any other key is looked up in the OWN table only, a miss allocating a fresh
Undefined cell.  Returns the possibly extended heap and the value cell. -/
def objectGet (h : Heap) (oA : Addr) (k : ValueData) : Heap × Addr :=
  let o := h.readObj oA
  if k = ValueData.str "__proto__" then
    match o.proto with
    | some p => h.alloc (.val (.object p))
    | none => h.alloc (.val .undefined)
  else
    match tableLookup h (eqFuel h) o.table k with
    | some v => (h, v)
    | none => h.alloc (.val .undefined)

/-- Outcome of a fallible heap-level operation: success, an error value to
be routed through the exception machinery (catch!), or a Rust panic /
assertion failure, which aborts the process and bypasses the handlers.
Fuel exhaustion of a scope-chain walk (a cyclic chain, on which the source
recursion never terminates) is also `fatal`. -/
inductive VRes (α : Type) where
  | ok (h : Heap) (a : α)
  | err (h : Heap) (e : ValueData)
  | fatal
deriving DecidableEq

/-- SetGet::get on a Value (src/vm/value.rs:172): Functions read through
their captured environment's own table, Objects through Object::get; Array
reads serve `length` and otherwise ASSERT a non-negative, in-range index —
an out-of-range read is an assertion failure (fatal), not a routed error.
Any other target yields a fresh Undefined. -/
def valueGet (h : Heap) (target : ValueData) (k : ValueData) : VRes Addr :=
  match target with
  | .function fA =>
    (match h.readFn fA with
     | .Regular rf =>
       let p := objectGet h rf.environment k
       .ok p.1 p.2
     | .Native _ =>
       let p := h.alloc (.val .undefined)
       .ok p.1 p.2)
  | .object oA =>
    let p := objectGet h oA k
    .ok p.1 p.2
  | .array aA =>
    let xs := h.readArr aA
    if k = ValueData.str "length" then
      let p := h.alloc (.val (.num (xs.length : ℚ)))
      .ok p.1 p.2
    else
      let idx := vToI64 k
      if idx < 0 then .fatal
      else
        match xs.get? idx.toNat with
        | some a => .ok h a
        | none => .fatal
  | _ =>
    let p := h.alloc (.val .undefined)
    .ok p.1 p.2

/-- SetGet::set on a Value (src/vm/value.rs:148): Functions delegate to
their captured environment, Objects insert (allocating a fresh cell for
the data), Arrays ASSERT the index and overwrite the slot with a fresh
cell; other targets are silently ignored. -/
def valueSet (h : Heap) (target : ValueData) (k : ValueData) (v : ValueData) : VRes Unit :=
  match target with
  | .function fA =>
    (match h.readFn fA with
     | .Regular rf => .ok (objectSet h rf.environment k v) ()
     | .Native _ => .ok h ())
  | .object oA => .ok (objectSet h oA k v) ()
  | .array aA =>
    let idx := vToI64 k
    if idx < 0 then .fatal
    else
      let xs := h.readArr aA
      if idx.toNat < xs.length then
        let p := h.alloc (.val v)
        .ok (p.1.write aA (.arr (xs.set idx.toNat p.2))) ()
      else .fatal
  | _ => .ok h ()

/-- var_declared (src/vm/value.rs:365): the key is in the scope's OWN
table (no prototype-chain walk). -/
def var_declared (h : Heap) (scope : Addr) (k : ValueData) : Bool :=
  (tableLookup h (eqFuel h) (h.readObj scope).table k).isSome

/-- declare_var (src/vm/value.rs:346): fails with the DuplicateDeclaration
error when the key is already in the scope's own table, otherwise inserts
the given value cell.  The dispatcher always calls it with a source
position of line 0 (mod.rs passes Position::new(0, 0)). -/
def declare_var (h : Heap) (scope : Addr) (k : ValueData) (v : Addr) : VRes Unit :=
  if var_declared h scope k then
    let p := new_error h 0 none ("Variable '" ++ vdStr h (eqFuel h) k ++ "' already declared")
    .err p.1 p.2
  else
    let o := h.readObj scope
    .ok (h.write scope (.obj { o with table := o.table ++ [(k, v)] })) ()

/-- set_variable_in_scope (src/vm/value.rs:324): walk the scope chain; at
the first scope whose own table holds the key, overwrite the slot with the
given cell; a missing key at the chain's end is the UndeclaredVariable
error.  The fuel bounds the chain walk (see the module comment). -/
def set_variable_in_scope (h : Heap) : Nat → Addr → ValueData → Addr → VRes Unit
  | 0, _, _, _ => .fatal
  | fuel+1, scope, k, v =>
    let o := h.readObj scope
    if var_declared h scope k then
      .ok (h.write scope (.obj { o with table := tableInsert h (eqFuel h) o.table k v })) ()
    else
      match o.proto with
      | some p => set_variable_in_scope h fuel p k v
      | none =>
        let p := new_error h 0 none ("Variable '" ++ vdStr h (eqFuel h) k ++ "' not declared")
        .err p.1 p.2

/-- get_variable (src/vm/value.rs:371): walk the scope chain; return the
value cell of the first scope holding the key; the chain's end is the
UndeclaredVariable error. -/
def get_variable (h : Heap) : Nat → Addr → ValueData → VRes Addr
  | 0, _, _ => .fatal
  | fuel+1, scope, k =>
    match tableLookup h (eqFuel h) (h.readObj scope).table k with
    | some v => .ok h v
    | none =>
      match (h.readObj scope).proto with
      | some p => get_variable h fuel p k
      | none =>
        let p := new_error h 0 none ("Variable '" ++ vdStr h (eqFuel h) k ++ "' not declared")
        .err p.1 p.2

/-- One entry of the save-stack (enum ExecData, src/vm/mod.rs:31). -/
inductive ExecData where
  | Pc (n : Nat)
  | Env (a : Addr)
  | Code (c : List Opcode)
  | Stack (s : List Addr)
  | C (c : List ValueData)
deriving DecidableEq

/-- The Frame (src/vm/mod.rs:63) plus the Machine's constant pool (the one
Machine field the dispatcher uses; `line_no` only feeds the never-called
get_pos).  The operand stack and the save/exception stacks keep their most
recent entry at the list head; `funs` likewise (Vec::last is the head).
The heap carries every shared allocation. -/
structure Frame where
  constants : List ValueData
  code : List Opcode
  stack : List Addr
  pc : Nat
  env : Addr
  funs : List Addr
  exec_stack : List ExecData
  exception_stack : List Nat
  cur_ins : Opcode
  heap : Heap
deriving DecidableEq

/-- save_state (src/vm/mod.rs:135): pushes Stack (the operand stack's
vector of cell references, cloned shallowly), Code, Env, Pc, C in exactly
that order, leaving the C entry on top. -/
def save_state (f : Frame) : Frame :=
  { f with exec_stack :=
      ExecData.C f.constants :: ExecData.Pc f.pc :: ExecData.Env f.env ::
        ExecData.Code f.code :: ExecData.Stack f.stack :: f.exec_stack }

/-- restore_state (src/vm/mod.rs:91): pops C, Pc, Env, Code, Stack in that
order into the frame; any other shape of the save-stack panics in the
source (`none` here). -/
def restore_state (f : Frame) : Option Frame :=
  match f.exec_stack with
  | .C c :: .Pc p :: .Env e :: .Code cd :: .Stack s :: rest =>
    some { f with constants := c, pc := p, env := e, code := cd, stack := s,
                  exec_stack := rest }
  | _ => none

/-- Frame::push (src/vm/mod.rs:188): allocate a fresh value cell for the
data and push its reference. -/
def Frame.pushData (f : Frame) (v : ValueData) : Frame :=
  let p := f.heap.alloc (.val v)
  { f with heap := p.1, stack := p.2 :: f.stack }

/-- Frame::push_ref (src/vm/mod.rs:192): push an existing cell reference. -/
def Frame.pushRef (f : Frame) (a : Addr) : Frame :=
  { f with stack := a :: f.stack }

/-- Frame::push_env (src/vm/mod.rs:165): a fresh Object whose prototype is
the current environment becomes current. -/
def Frame.push_env (f : Frame) : Frame :=
  let p := f.heap.alloc (.obj ⟨some f.env, []⟩)
  { f with heap := p.1, env := p.2 }

/-- Frame::pop_env (src/vm/mod.rs:175): restore the parent scope; a current
environment without prototype is a panic ("No env to pop"). -/
def Frame.pop_env (f : Frame) : Option Frame :=
  match (f.heap.readObj f.env).proto with
  | none => none
  | some p => some { f with env := p }

/-- The Rust Debug rendering of an opcode, used only inside the
StackUnderflow message text. -/
def opcodeDebug : Opcode → String
  | .NewIter => "NewIter"
  | .IterHasNext => "IterHasNext"
  | .IterNext => "IterNext"
  | .LoadConst i => "LoadConst(" ++ toString i ++ ")"
  | .LoadInt i => "LoadInt(" ++ toString i ++ ")"
  | .LoadTrue => "LoadTrue"
  | .LoadFalse => "LoadFalse"
  | .LoadNil => "LoadNil"
  | .LoadUndef => "LoadUndef"
  | .LoadVar s => "LoadVar(" ++ toString s ++ ")"
  | .DeclVar s => "DeclVar(" ++ toString s ++ ")"
  | .StoreVar s => "StoreVar(" ++ toString s ++ ")"
  | .Dup => "Dup"
  | .ConstructArray n => "ConstructArray(" ++ toString n ++ ")"
  | .Store => "Store"
  | .NewObj => "NewObj"
  | .Load => "Load"
  | .Return => "Return"
  | .Yield => "Yield"
  | .PushCatch a => "PushCatch(" ++ toString a ++ ")"
  | .PopCatch => "PopCatch"
  | .Throw => "Throw"
  | .Apply => "Apply"
  | .Call n => "Call(" ++ toString n ++ ")"
  | .Jump t => "Jump(" ++ toString t ++ ")"
  | .JumpIf t => "JumpIf(" ++ toString t ++ ")"
  | .JumpIfFalse t => "JumpIfFalse(" ++ toString t ++ ")"
  | .RefEq => "RefEq"
  | .RefNeq => "RefNeq"
  | .InitEnv => "InitEnv"
  | .PushEnv => "PushEnv"
  | .PopEnv => "PopEnv"
  | .Label => "Label"
  | .Add => "Add"
  | .Sub => "Sub"
  | .Div => "Div"
  | .Mul => "Mul"
  | .Rem => "Rem"
  | .Shl => "Shl"
  | .Shr => "Shr"
  | .BitAnd => "BitAnd"
  | .BitOr => "BitOr"
  | .BitXor => "BitXor"
  | .And => "And"
  | .Or => "Or"
  | .Gt => "Gt"
  | .Ge => "Ge"
  | .Lt => "Lt"
  | .Le => "Le"
  | .Eq => "Eq"
  | .Ne => "Ne"
  | .Not => "Not"
  | .Neg => "Neg"
  | .BlockEnd => "BlockEnd"

/-- Outcome of popping the operand stack (Frame::pop, src/vm/mod.rs:205):
the value cell, or the StackUnderflow error (which allocates its error
object, and whose message names the current instruction). -/
inductive PRes (α : Type) where
  | ok (f : Frame) (a : α)
  | fail (f : Frame) (e : ValueData)
deriving DecidableEq

/-- Frame::pop. -/
def Frame.popv (f : Frame) : PRes Addr :=
  match f.stack with
  | v :: rest => .ok { f with stack := rest } v
  | [] =>
    let p := new_error f.heap (-1) none
      ("Stack empty. Current instruction: " ++ opcodeDebug f.cur_ins)
    .fail { f with heap := p.1 } p.2

/-- Outcome of one instruction before the catch!/throw! post-processing:
normal continuation; an error to be routed through the exception-handler
stack, carrying the process exit code used when no handler is installed
(1 for the catch! path of fallible operations, -1 for the throw! path of
type errors); `ret` for Return on an empty save-stack (the executor
returns); `exited` for an exit the instruction performed itself (uncaught
Throw); a Rust panic (`fatal`); or transfer of control to an unmodelled
host-native function. -/
inductive OpRes where
  | ok (f : Frame)
  | err (f : Frame) (e : ValueData) (ecode : Int)
  | ret (f : Frame)
  | exited (code : Int)
  | fatal
  | hostCall (f : Frame)
deriving DecidableEq

/-- The throw! macro (src/vm/mod.rs:235): builds the "Runtime exception: "
error object; an uncaught one exits the process with code -1. -/
def throwRT (f : Frame) (msg : String) : OpRes :=
  let p := new_error f.heap (-1) none ("Runtime exception: " ++ msg)
  .err { f with heap := p.1 } p.2 (-1)

/-- Pop `argc` call arguments (the loop in the Call arm,
src/vm/mod.rs:594): the first-popped value heads the list. -/
def popArgs : Frame → Nat → PRes (List Addr)
  | f, 0 => .ok f []
  | f, n+1 =>
    match f.popv with
    | .fail g e => .fail g e
    | .ok g v =>
      match popArgs g n with
      | .fail g2 e => .fail g2 e
      | .ok g2 vs => .ok g2 (v :: vs)

/-- The declare-or-overwrite binding step used for formals, `_args` and
`this` (src/vm/mod.rs:643): if the name is in the captured environment's
own table, overwrite through the scope chain (which hits that own entry),
else declare it there. -/
def bindOne (h : Heap) (envA : Addr) (name : String) (v : Addr) : VRes Unit :=
  if var_declared h envA (.str name) then
    set_variable_in_scope h (eqFuel h) envA (.str name) v
  else
    declare_var h envA (.str name) v

/-- Bind the formal parameters in order against the argument cells; a
missing argument allocates a fresh Undefined cell (args.get(i).unwrap_or
(new_ref(Undefined))). -/
def bindFormals (h : Heap) (envA : Addr) : List String → List Addr → VRes Unit
  | [], _ => .ok h ()
  | name :: names, vs =>
    let p : Heap × Addr :=
      match vs with
      | v :: _ => (h, v)
      | [] => h.alloc (.val .undefined)
    match bindOne p.1 envA name p.2 with
    | .ok h2 _ => bindFormals h2 envA names vs.tail
    | .err h2 e => .err h2 e
    | .fatal => .fatal

/-- The regular-callee entry sequence, written once here because the Call
arm (src/vm/mod.rs:617) and the Apply arm (src/vm/mod.rs:506) contain it
verbatim: push the callee on the active-functions stack, save the state,
jump to the entry address with the captured environment (or to the
recorded yield position with the yield environment), install the callee's
code and constants, then bind formals, `_args` and `this` into the
CAPTURED environment.  `thisV = some a` binds the given cell (Call);
`none` allocates a fresh empty Object value and binds that (Apply). -/
def enterRegular (f : Frame) (fnA : Addr) (rf : RegularFn) (args : List Addr)
    (thisV : Option Addr) : OpRes :=
  let f1 := save_state { f with funs := fnA :: f.funs }
  let f2 :=
    match rf.yield_pos with
    | some pos => { f1 with pc := pos, env := rf.yield_env }
    | none => { f1 with pc := rf.addr, env := rf.environment }
  let f3 := { f2 with code := rf.code, constants := rf.constants }
  match bindFormals f3.heap rf.environment rf.args args with
  | .fatal => .fatal
  | .err h e => .err { f3 with heap := h } e 1
  | .ok h1 _ =>
    let pArr := h1.alloc (.arr args)
    let pVal := pArr.1.alloc (.val (.array pArr.2))
    match bindOne pVal.1 rf.environment "_args" pVal.2 with
    | .fatal => .fatal
    | .err h e => .err { f3 with heap := h } e 1
    | .ok h4 _ =>
      let pThis : Heap × Addr :=
        match thisV with
        | some a => (h4, a)
        | none =>
          let pO := h4.alloc (.obj ⟨none, []⟩)
          pO.1.alloc (.val (.object pO.2))
      match bindOne pThis.1 rf.environment "this" pThis.2 with
      | .fatal => .fatal
      | .err h e => .err { f3 with heap := h } e 1
      | .ok h6 _ => .ok { f3 with heap := h6 }

/-- The Call(argc) arm (src/vm/mod.rs:589): pop the callee, then `this`,
then argc arguments; a Native callee hands control to the host, a Regular
callee enters through `enterRegular`, a non-function is the "function
expected" runtime exception. -/
def execCall (argc : Nat) (f : Frame) : OpRes :=
  match f.popv with
  | .fail g e => .err g e 1
  | .ok f1 funV =>
    match f1.popv with
    | .fail g e => .err g e 1
    | .ok f2 thisV =>
      match popArgs f2 argc with
      | .fail g e => .err g e 1
      | .ok f3 args =>
        match f3.heap.readVal funV with
        | .function fnA =>
          (match f3.heap.readFn fnA with
           | .Native _ => .hostCall f3
           | .Regular rf => enterRegular f3 fnA rf args (some thisV))
        | _ => throwRT f3 "function expected"

/-- The Apply arm (src/vm/mod.rs:479): pop the callee, then ONE Array
value whose elements become the arguments; a Native callee is invoked with
Nil as `this`; a Regular callee enters through `enterRegular` with no
`this` cell, so a fresh empty Object is bound. -/
def execApply (f : Frame) : OpRes :=
  match f.popv with
  | .fail g e => .err g e 1
  | .ok f1 funV =>
    match f1.popv with
    | .fail g e => .err g e 1
    | .ok f2 argsV =>
      match f2.heap.readVal argsV with
      | .array arrA =>
        let args := f2.heap.readArr arrA
        (match f2.heap.readVal funV with
         | .function fnA =>
           (match f2.heap.readFn fnA with
            | .Native _ => .hostCall f2
            | .Regular rf => enterRegular f2 fnA rf args none)
         | _ => throwRT f2 "function expected")
      | _ => throwRT f2 "Array expected in apply"

/-- The Return arm (src/vm/mod.rs:408): pop the return value (a fresh
Undefined cell when the stack is empty); an empty save-stack ends the
executor; otherwise restore the saved state, clear the yield position of
the topmost active function, pop it, and push the return value. -/
def returnRestore (f1 : Frame) (retA : Addr) : OpRes :=
  if f1.exec_stack.isEmpty then .ret f1
  else
    match restore_state f1 with
    | none => .fatal
    | some f2 =>
      let f3 :=
        match f2.funs with
        | [] => f2
        | topF :: _ =>
          match f2.heap.readFn topF with
          | .Regular rf =>
            { f2 with heap := f2.heap.write topF (.fn (.Regular { rf with yield_pos := none })) }
          | .Native _ => f2
      .ok (Frame.pushRef { f3 with funs := f3.funs.tail } retA)

def execReturn (f : Frame) : OpRes :=
  match f.stack with
  | v :: rest => returnRestore { f with stack := rest } v
  | [] =>
    let p := f.heap.alloc (.val .undefined)
    returnRestore { f with heap := p.1 } p.2

/-- The Yield arm (src/vm/mod.rs:434): pop the yielded value; record the
current pc and environment into the topmost active function (an empty
active stack is the "can not find function state" runtime exception, a
Native top is unreachable!()); restore the saved state and push the
yielded value.  The active-functions stack is NOT popped. -/
def execYield (f : Frame) : OpRes :=
  match f.popv with
  | .fail g e => .err g e 1
  | .ok f1 retA =>
    match f1.funs with
    | [] => throwRT f1 "can not find function state"
    | topF :: _ =>
      match f1.heap.readFn topF with
      | .Regular rf =>
        let h2 := f1.heap.write topF (.fn (.Regular { rf with yield_pos := some f1.pc, yield_env := f1.env }))
        let f2 := { f1 with heap := h2 }
        (match restore_state f2 with
         | none => .fatal
         | some f3 => .ok (f3.pushRef retA))
      | .Native _ => .fatal

/-- The Throw arm (src/vm/mod.rs:465): pop the payload (a fresh Undefined
cell when the stack is empty) and transfer to the top handler, pushing the
SAME cell back; with no handler installed the process exits with code 1. -/
def execThrow (f : Frame) : OpRes :=
  let pr : Frame × Addr :=
    match f.stack with
    | v :: rest => ({ f with stack := rest }, v)
    | [] =>
      let p := f.heap.alloc (.val .undefined)
      ({ f with heap := p.1 }, p.2)
  match pr.1.exception_stack with
  | loc :: rest =>
    .ok { pr.1 with pc := loc, exception_stack := rest, stack := pr.2 :: pr.1.stack }
  | [] => .exited 1

/-- The NewIter arm (src/vm/mod.rs:255): snapshot an Object's entries as
fresh {key, value} objects in insertion order, an Array's element
references, pass an Iterator through (rewrapped in a fresh value cell);
anything else is a runtime exception. -/
def mkEntries (h : Heap) : List (ValueData × Addr) → Heap × List Addr
  | [] => (h, [])
  | (k, vA) :: rest =>
    let pE := h.alloc (.obj ⟨none, []⟩)
    let h2 := objectSet pE.1 pE.2 (.str "key") k
    let h3 := objectSet h2 pE.2 (.str "value") (h2.readVal vA)
    let pC := h3.alloc (.val (.object pE.2))
    let pr := mkEntries pC.1 rest
    (pr.1, pC.2 :: pr.2)

def execNewIter (f : Frame) : OpRes :=
  match f.popv with
  | .fail g e => .err g e 1
  | .ok f1 v =>
    match f1.heap.readVal v with
    | .object oA =>
      let pr := mkEntries f1.heap (f1.heap.readObj oA).table
      let pI := pr.1.alloc (.iter pr.2)
      .ok (Frame.pushData { f1 with heap := pI.1 } (.iterator pI.2))
    | .array aA =>
      let pI := f1.heap.alloc (.iter (f1.heap.readArr aA))
      .ok (Frame.pushData { f1 with heap := pI.1 } (.iterator pI.2))
    | .iterator itA => .ok (f1.pushData (.iterator itA))
    | _ => throwRT f1 "Array or object expected in iterator instance"

/-- The IterHasNext arm (src/vm/mod.rs:285).  Modelled from the spec: the
ValueIter implementation is not under src/; per §3 of the specification
has_next reports whether values remain.  A non-iterator operand panics
in the source (panic!). -/
def execIterHasNext (f : Frame) : OpRes :=
  match f.popv with
  | .fail g e => .err g e 1
  | .ok f1 v =>
    match f1.heap.readVal v with
    | .iterator itA => .ok (f1.pushData (.bool (!(f1.heap.readIter itA).isEmpty)))
    | _ => .fatal

/-- The IterNext arm (src/vm/mod.rs:296).  Modelled from the spec: next
returns the front element and advances; an exhausted iterator's next is
not specified and is modelled as a panic, as is the source's
unreachable!() on a non-iterator. -/
def execIterNext (f : Frame) : OpRes :=
  match f.popv with
  | .fail g e => .err g e 1
  | .ok f1 v =>
    match f1.heap.readVal v with
    | .iterator itA =>
      (match f1.heap.readIter itA with
       | x :: rest => .ok (Frame.pushRef { f1 with heap := f1.heap.write itA (.iter rest) } x)
       | [] => .fatal)
    | _ => .fatal

/-- The DeclVar arm (src/vm/mod.rs:337): pop the value; when the name is
already in the CURRENT scope's own table the dispatcher overwrites it via
set_variable_in_scope, otherwise it declares it — declare_var's
DuplicateDeclaration error is therefore never reached from DeclVar. -/
def execDeclVar (name : String) (f : Frame) : OpRes :=
  match f.popv with
  | .fail g e => .err g e 1
  | .ok f1 v =>
    if var_declared f1.heap f1.env (.str name) then
      match set_variable_in_scope f1.heap (eqFuel f1.heap) f1.env (.str name) v with
      | .ok h _ => .ok { f1 with heap := h }
      | .err h e => .err { f1 with heap := h } e 1
      | .fatal => .fatal
    else
      match declare_var f1.heap f1.env (.str name) v with
      | .ok h _ => .ok { f1 with heap := h }
      | .err h e => .err { f1 with heap := h } e 1
      | .fatal => .fatal

/-- The StoreVar arm (src/vm/mod.rs:359): pop and assign through the scope
chain. -/
def execStoreVar (name : String) (f : Frame) : OpRes :=
  match f.popv with
  | .fail g e => .err g e 1
  | .ok f1 v =>
    match set_variable_in_scope f1.heap (eqFuel f1.heap) f1.env (.str name) v with
    | .ok h _ => .ok { f1 with heap := h }
    | .err h e => .err { f1 with heap := h } e 1
    | .fatal => .fatal

/-- The ConstructArray(n) loop body (src/vm/mod.rs:376): the array cell is
allocated empty first, then each popped value is appended (so the array
holds the n values in pop order, the reverse of push order). -/
def fillArray (arrA : Addr) : Nat → Frame → PRes Unit
  | 0, f => .ok f ()
  | n+1, f =>
    match f.popv with
    | .fail g e => .fail g e
    | .ok g v =>
      fillArray arrA n { g with heap := g.heap.write arrA (.arr (g.heap.readArr arrA ++ [v])) }

/-- The InitEnv arm (src/vm/mod.rs:736): pop the function value; a Regular
callee gets a fresh Object (prototype: the current environment) as its
captured environment and a snapshot of the current constants; a Native one
is untouched; a non-function is a runtime exception.  The function value
is pushed back as a fresh cell holding the same function reference. -/
def execInitEnv (f : Frame) : OpRes :=
  match f.popv with
  | .fail g e => .err g e 1
  | .ok f1 funV =>
    match f1.heap.readVal funV with
    | .function fnA =>
      let f2 :=
        match f1.heap.readFn fnA with
        | .Native _ => f1
        | .Regular rf =>
          let pE := f1.heap.alloc (.obj ⟨none, []⟩)
          let h3 := pE.1.write pE.2 (.obj ⟨some f1.env, []⟩)
          let h4 := h3.write fnA (.fn (.Regular { rf with constants := f1.constants, environment := pE.2 }))
          { f1 with heap := h4 }
      .ok (f2.pushData (f2.heap.readVal funV))
    | _ => throwRT f1 "function expected"

/-- One instruction's action (the body of the dispatcher's match,
src/vm/mod.rs:254), taken AFTER the loop has read the opcode, recorded it
as cur_ins and incremented the pc.  The catch!/throw! transfer of `err`
results is applied uniformly by `step` below, exactly as the two macros
apply it at every use site. -/
def stepOp (op : Opcode) (f : Frame) : OpRes :=
  match op with
  | .NewIter => execNewIter f
  | .IterHasNext => execIterHasNext f
  | .IterNext => execIterNext f
  | .LoadConst i =>
    if hc : i < f.constants.length then .ok (f.pushData (f.constants.get ⟨i, hc⟩))
    else .fatal
  | .LoadInt i => .ok (f.pushData (.num (i : ℚ)))
  | .LoadTrue => .ok (f.pushData (.bool true))
  | .LoadFalse => .ok (f.pushData (.bool false))
  | .LoadNil => .ok (f.pushData .nil)
  | .LoadUndef => .ok (f.pushData .undefined)
  | .LoadVar name =>
    (match get_variable f.heap (eqFuel f.heap) f.env (.str name) with
     | .ok _ a => .ok (f.pushRef a)
     | .err h e => .err { f with heap := h } e 1
     | .fatal => .fatal)
  | .DeclVar name => execDeclVar name f
  | .StoreVar name => execStoreVar name f
  | .Dup =>
    (match f.stack with
     | v :: rest => .ok { f with stack := v :: v :: rest }
     | [] =>
       let p := f.heap.alloc (.val .undefined)
       .ok { f with heap := p.1, stack := [p.2, p.2] })
  | .ConstructArray n =>
    let pA := f.heap.alloc (.arr [])
    (match fillArray pA.2 n { f with heap := pA.1 } with
     | .fail g e => .err g e 1
     | .ok g _ => .ok (g.pushData (.array pA.2)))
  | .Store =>
    (match f.popv with
     | .fail g e => .err g e 1
     | .ok f1 valueA =>
       match f1.popv with
       | .fail g e => .err g e 1
       | .ok f2 keyA =>
         match f2.popv with
         | .fail g e => .err g e 1
         | .ok f3 objA =>
           match valueSet f3.heap (f3.heap.readVal objA) (f3.heap.readVal keyA)
               (f3.heap.readVal valueA) with
           | .ok h _ => .ok { f3 with heap := h }
           | .err h e => .err { f3 with heap := h } e 1
           | .fatal => .fatal)
  | .NewObj =>
    let pO := f.heap.alloc (.obj ⟨none, []⟩)
    .ok (Frame.pushData { f with heap := pO.1 } (.object pO.2))
  | .Load =>
    (match f.popv with
     | .fail g e => .err g e 1
     | .ok f1 keyA =>
       match f1.popv with
       | .fail g e => .err g e 1
       | .ok f2 objA =>
         match valueGet f2.heap (f2.heap.readVal objA) (f2.heap.readVal keyA) with
         | .ok h a => .ok (Frame.pushRef { f2 with heap := h } a)
         | .err h e => .err { f2 with heap := h } e 1
         | .fatal => .fatal)
  | .Return => execReturn f
  | .Yield => execYield f
  | .PushCatch a => .ok { f with exception_stack := a :: f.exception_stack }
  | .PopCatch => .ok { f with exception_stack := f.exception_stack.tail }
  | .Throw => execThrow f
  | .Apply => execApply f
  | .Call argc => execCall argc f
  | .Jump t => .ok { f with pc := t }
  | .JumpIf t =>
    (match f.popv with
     | .fail g e => .err g e 1
     | .ok f1 v =>
       if vToBool (f1.heap.readVal v) then .ok { f1 with pc := t } else .ok f1)
  | .JumpIfFalse t =>
    (match f.popv with
     | .fail g e => .err g e 1
     | .ok f1 v =>
       if !vToBool (f1.heap.readVal v) then .ok { f1 with pc := t } else .ok f1)
  | .RefEq =>
    (match f.popv with
     | .fail g e => .err g e 1
     | .ok f1 x =>
       match f1.popv with
       | .fail g e => .err g e 1
       | .ok f2 y => .ok (f2.pushData (.bool (x == y))))
  | .RefNeq =>
    (match f.popv with
     | .fail g e => .err g e 1
     | .ok f1 x =>
       match f1.popv with
       | .fail g e => .err g e 1
       | .ok f2 y => .ok (f2.pushData (.bool (!(x == y)))))
  | .InitEnv => execInitEnv f
  | .PushEnv => .ok f.push_env
  | .PopEnv =>
    (match f.pop_env with
     | some g => .ok g
     | none => .fatal)
  | .Label => .ok f
  | .Add | .Sub | .Div | .Mul | .Rem | .Shl | .Shr | .BitAnd | .BitOr | .BitXor
  | .And | .Or | .Gt | .Ge | .Lt | .Le | .Eq | .Ne =>
    (match f.popv with
     | .fail g e => .err g e 1
     | .ok f1 lhsA =>
       match f1.popv with
       | .fail g e => .err g e 1
       | .ok f2 rhsA =>
         let pr := binOpEval f2.heap op (f2.heap.readVal lhsA) (f2.heap.readVal rhsA)
         .ok (Frame.pushData { f2 with heap := pr.1 } pr.2))
  | .Not =>
    (match f.popv with
     | .fail g e => .err g e 1
     | .ok f1 v => .ok (f1.pushData (notEval (f1.heap.readVal v))))
  | .Neg =>
    (match f.popv with
     | .fail g e => .err g e 1
     | .ok f1 v => .ok (f1.pushData (negEval (f1.heap.readVal v))))
  | .BlockEnd => .ok f

/-- The opcode the loop reads at the current pc. -/
def fetchedOp (f : Frame) : Opcode := f.code.getD f.pc Opcode.BlockEnd

/-- The frame after the loop's fetch: cur_ins recorded, pc incremented. -/
def preFrame (f : Frame) : Frame := { f with pc := f.pc + 1, cur_ins := fetchedOp f }

/-- Result of one full dispatch step. -/
inductive StepOut where
  | next (f : Frame)
  | halt (f : Frame)
  | exitP (c : Int)
  | fatalP
  | hostP (f : Frame)
deriving DecidableEq

/-- One full dispatch step (the loop body, src/vm/mod.rs:249, with pc <
code length): read the opcode at pc, record it as cur_ins, increment pc,
execute, and — for err results — perform the transfer both macros write:
pop the top handler address into pc and push a fresh cell holding the
error value, or, with no handler installed, exit the process with the
error's carried code. -/
def step (f : Frame) : StepOut :=
  match stepOp (fetchedOp f) (preFrame f) with
  | .ok g => .next g
  | .ret g => .halt g
  | .exited c => .exitP c
  | .fatal => .fatalP
  | .hostCall g => .hostP g
  | .err g e ec =>
    match g.exception_stack with
    | loc :: rest => .next (Frame.pushData { g with pc := loc, exception_stack := rest } e)
    | [] => .exitP ec

/-- Result of running the executor to completion. -/
inductive RunResult where
  | done (f : Frame)
  | exited (c : Int)
  | panicked
  | host (f : Frame)
  | outOfFuel (f : Frame)
deriving DecidableEq

/-- The executor loop (Frame::execute, src/vm/mod.rs:249): run while pc is
inside the code; `done` is a normal return (falling past the end, or
Return on an empty save-stack). -/
def run : Nat → Frame → RunResult
  | 0, f => .outOfFuel f
  | n+1, f =>
    if f.pc < f.code.length then
      match step f with
      | .next g => run n g
      | .halt g => .done g
      | .exitP c => .exited c
      | .fatalP => .panicked
      | .hostP g => .host g
    else .done f

/-- The process exit code: 0 when the executor returns normally, the
carried code on a std::process::exit; none when the process aborts
through a panic, leaves the model through a host call, or the fuel ran
out. -/
def exitCodeOf : RunResult → Option Int
  | .done _ => some 0
  | .exited c => some c
  | _ => none

/-- A fresh Frame on a fresh Machine with the given code installed
(Frame::new, src/vm/mod.rs:76: empty stacks, a fresh root environment,
cur_ins BlockEnd, empty constant pool). -/
def initFrame (code : List Opcode) : Frame :=
  { constants := [], code := code, stack := [], pc := 0, env := 0,
    funs := [], exec_stack := [], exception_stack := [],
    cur_ins := .BlockEnd, heap := [Cell.obj ⟨none, []⟩] }

/-- Extract the frame of a terminated run (default: an empty frame). -/
def finalOf : RunResult → Frame
  | .done f => f
  | .host f => f
  | .outOfFuel f => f
  | _ => initFrame []

/-- Extract the frame of a step outcome (default: an empty frame). -/
def nextOf : StepOut → Frame
  | .next f => f
  | .halt f => f
  | .hostP f => f
  | _ => initFrame []

/-- Extract the frame of an instruction outcome. -/
def opResFrame : OpRes → Frame
  | .ok f => f
  | .err f _ _ => f
  | .ret f => f
  | .hostCall f => f
  | _ => initFrame []

/-- Extract the error value of an instruction outcome. -/
def opResErr : OpRes → ValueData
  | .err _ e _ => e
  | _ => .undefined

/-- Extract the carried exit code of an instruction outcome. -/
def opResCode : OpRes → Int
  | .err _ _ c => c
  | _ => 0

/-- The S1 subtraction program of the specification: LoadInt 10; LoadInt 3;
Sub. -/
def c1prog : List Opcode := [.LoadInt 10, .LoadInt 3, .Sub]

/-- Final frame of the S1 subtraction program. -/
def c1fin : Frame := finalOf (run 4 (initFrame c1prog))

/-- A one-instruction Sub frame with Number 10 pushed first and Number 3
second (cells 1 and 2; the stack head is the top). -/
def c1wFr : Frame :=
  let h : Heap := [Cell.obj ⟨none, []⟩, Cell.val (.num 10), Cell.val (.num 3)]
  { initFrame [Opcode.Sub] with stack := [2, 1], heap := h }

/-- A program whose main code calls a generator that yields once: cell 2 is
the Regular function (body LoadInt 1; Yield, entry 0, captured environment
cell 1), cell 3 its function value, cell 4 the `this` value.  Call pops the
callee (3) then `this` (4). -/
def c3genFr : Frame :=
  { constants := [], code := [Opcode.Call 0, Opcode.Return], stack := [3, 4], pc := 0,
    env := 0, funs := [], exec_stack := [], exception_stack := [], cur_ins := .BlockEnd,
    heap := [Cell.obj ⟨none, []⟩, Cell.obj ⟨some 0, []⟩,
      Cell.fn (.Regular ⟨1, [Opcode.LoadInt 1, Opcode.Yield], 0, none, [], 0, []⟩),
      Cell.val (.function 2), Cell.val .nil] }

/-- Final frame of the generator program. -/
def c3fin : Frame := finalOf (run 5 c3genFr)

/-- A frame about to execute a top-level Return on an empty save-stack. -/
def c3wFr : Frame := initFrame [Opcode.Return]

/-- The halted frame of that Return. -/
def c3wHalt : Frame := nextOf (step c3wFr)

/-- A frame about to Apply a Regular function (cell 2, captured environment
cell 1, no formals) to an empty argument Array (cell 4, its value cell 5);
Apply pops the callee value (3) then the Array value (5). -/
def c4Fr : Frame :=
  { constants := [], code := [Opcode.Apply], stack := [3, 5], pc := 0,
    env := 0, funs := [], exec_stack := [], exception_stack := [], cur_ins := .BlockEnd,
    heap := [Cell.obj ⟨none, []⟩, Cell.obj ⟨some 0, []⟩,
      Cell.fn (.Regular ⟨1, [Opcode.Label], 0, none, [], 0, []⟩),
      Cell.val (.function 2), Cell.arr [], Cell.val (.array 4)] }

/-- The frame after that Apply. -/
def c4g : Frame := nextOf (step c4Fr)

/-- The S2-style double-declaration program: DeclVar "x" of 1, then
DeclVar "x" of 2 in the same scope. -/
def c5prog : List Opcode := [.LoadInt 1, .DeclVar "x", .LoadInt 2, .DeclVar "x"]

/-- Final frame of the double-declaration program. -/
def c5fin : Frame := finalOf (run 5 (initFrame c5prog))

/-- A frame about to execute DeclVar "x" while "x" is already in the
current scope's own table (bound to cell 1); the popped value is cell 2. -/
def c5wFr : Frame :=
  let h : Heap := [Cell.obj ⟨none, [(ValueData.str "x", 1)]⟩, Cell.val (.num 5), Cell.val (.num 9)]
  { initFrame [Opcode.DeclVar "x"] with stack := [2], heap := h }

/-- The DeclVar witness frame after its pop: the stack is consumed, the
rest untouched. -/
def c5wFrPop : Frame := { c5wFr with stack := [] }

/-- A frame that executes Store on an empty Array (cell 1, value cell 2)
at index 0 (key cell 3, stored value cell 4) with a handler installed at
address 9: the out-of-range write asserts. -/
def c7Fr : Frame :=
  { constants := [], code := [Opcode.PushCatch 9, Opcode.Store], stack := [4, 3, 2], pc := 0,
    env := 0, funs := [], exec_stack := [], exception_stack := [], cur_ins := .BlockEnd,
    heap := [Cell.obj ⟨none, []⟩, Cell.arr [], Cell.val (.array 1),
      Cell.val (.num 0), Cell.val (.num 5)] }

/-- The same frame one step later, about to execute the Store with the
handler stack non-empty. -/
def c7Fr2 : Frame := nextOf (step c7Fr)

/-- A frame raising a StackUnderflow with a handler installed at 5. -/
def c7wFr : Frame := { initFrame [Opcode.Sub] with exception_stack := [5] }

/-- The fault outcome of that frame's instruction. -/
def c7wRes : OpRes := stepOp (fetchedOp c7wFr) (preFrame c7wFr)

/-- A frame raising an UndeclaredVariable error from LoadVar with a
handler installed at 3. -/
def c9wFr : Frame := { initFrame [Opcode.LoadVar "q"] with exception_stack := [3] }

/-- The fault outcome of that frame's instruction. -/
def c9wRes : OpRes := stepOp (fetchedOp c9wFr) (preFrame c9wFr)

/-- A frame raising an uncaught StackUnderflow (no handler). -/
def c6wFr : Frame := initFrame [Opcode.Sub]

/-- The fault outcome of that frame's instruction. -/
def c6wRes : OpRes := stepOp (fetchedOp c6wFr) (preFrame c6wFr)

/-- A frame about to Dup on an empty operand stack. -/
def c10wFr : Frame := initFrame [Opcode.Dup]

/-- The frame components that raising an error (before its transfer to a
handler) leaves untouched: environment, bytecode reference, constant pool,
save-stack, active-functions stack, and (until the transfer pops it) the
handler stack. -/
def coreEq (f g : Frame) : Prop :=
  g.env = f.env ∧ g.code = f.code ∧ g.constants = f.constants ∧
  g.exec_stack = f.exec_stack ∧ g.funs = f.funs ∧ g.exception_stack = f.exception_stack

/-- Reading the cell just allocated. -/
theorem Heap.read_alloc (h : Heap) (c : Cell) : Heap.read (h ++ [c]) h.length = c := by
  simp [Heap.read, List.getD_append_right]

/-- Allocation does not disturb existing cells. -/
theorem Heap.read_alloc_lt (h : Heap) (c : Cell) (a : Addr) (ha : a < h.length) :
    Heap.read (h ++ [c]) a = h.read a := by
  simp only [Heap.read]
  rw [List.getD_append _ _ _ _ ha]

/-- Reading a value cell just allocated. -/
theorem Heap.readVal_alloc (h : Heap) (v : ValueData) :
    Heap.readVal (h ++ [Cell.val v]) h.length = v := by
  simp [Heap.readVal, Heap.read_alloc]

/-- Reading back a written cell. -/
theorem Heap.read_write (h : Heap) (a : Addr) (c : Cell) (ha : a < h.length) :
    Heap.read (h.write a c) a = c := by
  simp [Heap.read, Heap.write, ha]

/-- Writing one cell does not disturb another. -/
theorem Heap.read_write_ne (h : Heap) (a b : Addr) (c : Cell) (hne : a ≠ b) :
    Heap.read (h.write a c) b = h.read b := by
  simp [Heap.read, Heap.write, hne]

/-- A failing pop changes the heap alone (the StackUnderflow error object
is allocated): environment, code, constants, save/handler/active stacks,
pc and even the (empty) operand stack are untouched. -/
theorem popv_fail_core (f g : Frame) (e : ValueData) (h : f.popv = .fail g e) :
    coreEq f g ∧ g.pc = f.pc ∧ g.stack = f.stack := by
  unfold Frame.popv at h
  split at h
  · cases h
  · cases h
    exact ⟨⟨rfl, rfl, rfl, rfl, rfl, rfl⟩, rfl, rfl⟩

/-- A successful pop removes the stack top and changes nothing else. -/
theorem popv_ok_core (f g : Frame) (v : Addr) (h : f.popv = .ok g v) :
    coreEq f g ∧ g.pc = f.pc ∧ g.heap = f.heap ∧ f.stack = v :: g.stack ∧
      g.cur_ins = f.cur_ins := by
  unfold Frame.popv at h
  split at h
  · cases h
    next heq => exact ⟨⟨rfl, rfl, rfl, rfl, rfl, rfl⟩, rfl, rfl, heq, rfl⟩
  · cases h

/-- Popping the argument vector removes a prefix of the stack and changes
nothing else; a failure changes the heap alone. -/
theorem popArgs_core (n : Nat) (f : Frame) :
    (∀ g vs, popArgs f n = .ok g vs →
      coreEq f g ∧ g.pc = f.pc ∧ g.heap = f.heap ∧ f.stack = vs ++ g.stack) ∧
    (∀ g e, popArgs f n = .fail g e → coreEq f g ∧ g.pc = f.pc) := by
  induction n generalizing f with
  | zero =>
    refine ⟨fun g vs h => ?_, fun g e h => ?_⟩
    · cases h; exact ⟨⟨rfl, rfl, rfl, rfl, rfl, rfl⟩, rfl, rfl, rfl⟩
    · cases h
  | succ n ih =>
    refine ⟨fun g vs h => ?_, fun g e h => ?_⟩ <;> unfold popArgs at h
    · cases hpop : f.popv with
      | fail f1 e1 => simp only [hpop] at h; cases h
      | ok f1 v =>
        simp only [hpop] at h
        cases hrec : popArgs f1 n with
        | fail g2 e2 => simp only [hrec] at h; cases h
        | ok g2 vs2 =>
          simp only [hrec] at h
          obtain ⟨hc1, hp1, hh1, hs1, _⟩ := popv_ok_core f f1 v hpop
          obtain ⟨hc2, hp2, hh2, hs2⟩ := (ih f1).1 g2 vs2 hrec
          obtain ⟨a1, a2, a3, a4, a5, a6⟩ := hc1
          obtain ⟨b1, b2, b3, b4, b5, b6⟩ := hc2
          cases h
          refine ⟨⟨b1.trans a1, b2.trans a2, b3.trans a3, b4.trans a4,
            b5.trans a5, b6.trans a6⟩, hp2.trans hp1, hh2.trans hh1, ?_⟩
          rw [hs1, hs2]; simp
    · cases hpop : f.popv with
      | fail f1 e1 =>
        simp only [hpop] at h
        obtain ⟨hc1, hp1, _⟩ := popv_fail_core f f1 e1 hpop
        cases h
        exact ⟨hc1, hp1⟩
      | ok f1 v =>
        simp only [hpop] at h
        cases hrec : popArgs f1 n with
        | ok g2 vs2 => simp only [hrec] at h; cases h
        | fail g2 e2 =>
          simp only [hrec] at h
          obtain ⟨hc1, hp1, _, _, _⟩ := popv_ok_core f f1 v hpop
          obtain ⟨hc2, hp2⟩ := (ih f1).2 g2 e2 hrec
          obtain ⟨a1, a2, a3, a4, a5, a6⟩ := hc1
          obtain ⟨b1, b2, b3, b4, b5, b6⟩ := hc2
          cases h
          exact ⟨⟨b1.trans a1, b2.trans a2, b3.trans a3, b4.trans a4,
            b5.trans a5, b6.trans a6⟩, hp2.trans hp1⟩

/-- The throw! macro builds its error in a fresh heap extension and changes
nothing else of the frame; an uncaught such error exits with code -1. -/
theorem throwRT_core (f g : Frame) (m : String) (e : ValueData) (c : Int)
    (h : throwRT f m = .err g e c) :
    coreEq f g ∧ g.pc = f.pc ∧ g.stack = f.stack ∧ c = -1 := by
  unfold throwRT at h
  cases h
  exact ⟨⟨rfl, rfl, rfl, rfl, rfl, rfl⟩, rfl, rfl, rfl⟩

/-- C8.  save_state pushes Stack, Code, Env, Pc, C in exactly that order
(leaving the constants entry topmost), and restore_state pops them in the
reverse order; restore_state run immediately after save_state is the
identity on the whole frame — operand stack, bytecode reference,
environment, pc and constant pool included — and leaves the save-stack as
it was. -/
theorem C8_save_restore (f : Frame) :
    restore_state (save_state f) = some f ∧
    (save_state f).exec_stack =
      ExecData.C f.constants :: ExecData.Pc f.pc :: ExecData.Env f.env ::
        ExecData.Code f.code :: ExecData.Stack f.stack :: f.exec_stack := by
  exact ⟨rfl, rfl⟩

/-- C2 (corrected).  The truthiness coercion used by JumpIf, JumpIfFalse,
And and Or: a Bool coerces to itself and a Number is truthy exactly when
its floor is non-zero, but — against the claim — every OTHER value is
false: the coercion's catch-all arm maps String, Object, Array, Function
and Iterator to false, not true (Nil and Undefined are false as claimed).
The And/Or opcodes apply exactly this coercion to both operands. -/
theorem C2_truthiness :
    (∀ v : ValueData, vToBool v = true ↔
      (v = .bool true ∨ ∃ x : ℚ, v = .num x ∧ x.floor ≠ 0)) ∧
    (∀ (h : Heap) (a b : ValueData), binOpEval h .And a b = (h, .bool (vToBool a && vToBool b))) ∧
    (∀ (h : Heap) (a b : ValueData), binOpEval h .Or a b = (h, .bool (vToBool a || vToBool b))) := by
  refine ⟨fun v => ?_, fun h a b => rfl, fun h a b => rfl⟩
  cases v <;> simp [vToBool]

/-- C2 counterexample.  The claim calls String, Object, Array, Function and
Iterator values truthy; the coercion maps each of them to false (shown at
a string, an object and a function value). -/
theorem C2_truthiness_counterexample :
    vToBool (ValueData.str "abc") = false ∧
    vToBool (ValueData.object 0) = false ∧
    vToBool (ValueData.function 0) = false ∧
    ¬ vToBool (ValueData.str "abc") = true := by
  exact ⟨rfl, rfl, rfl, by decide⟩

/-- C10.  Dup never raises StackUnderflow: on an empty operand stack it
allocates one fresh Undefined cell and pushes that reference twice; on a
non-empty stack it pops the top and pushes the same reference twice. -/
theorem C10_dup (f : Frame) (hc : fetchedOp f = Opcode.Dup) :
    (f.stack = [] →
      step f = .next { f with
        pc := f.pc + 1, cur_ins := .Dup,
        heap := f.heap ++ [Cell.val .undefined], stack := [f.heap.length, f.heap.length] } ∧
      Heap.readVal (f.heap ++ [Cell.val .undefined]) f.heap.length = .undefined) ∧
    (∀ v S, f.stack = v :: S →
      step f = .next { f with pc := f.pc + 1, cur_ins := .Dup, stack := v :: v :: S }) := by
  constructor
  · intro hs
    refine ⟨?_, Heap.readVal_alloc f.heap .undefined⟩
    simp [step, hc, stepOp, preFrame, hs, Heap.alloc]
  · intro v S hs
    simp [step, hc, stepOp, preFrame, hs]

/-- C10 witness: Dup on the empty stack of a fresh frame. -/
theorem C10_dup_witness :
    fetchedOp c10wFr = Opcode.Dup ∧ c10wFr.stack = [] ∧
    step c10wFr = .next { c10wFr with
      pc := c10wFr.pc + 1, cur_ins := .Dup,
      heap := c10wFr.heap ++ [Cell.val .undefined],
      stack := [c10wFr.heap.length, c10wFr.heap.length] } :=
  ⟨by decide, by decide, ((C10_dup c10wFr (by decide)).1 (by decide)).1⟩

/-- The dispatcher's combined binary arm, spelled once: pop lhs, pop rhs,
evaluate, push the result. -/
theorem stepOp_isBinary (op : Opcode) (f : Frame) (hbin : op.isBinary = true) :
    stepOp op f = (match f.popv with
      | .fail g e => .err g e 1
      | .ok f1 lhsA =>
        match f1.popv with
        | .fail g e => .err g e 1
        | .ok f2 rhsA =>
          let pr := binOpEval f2.heap op (f2.heap.readVal lhsA) (f2.heap.readVal rhsA)
          .ok (Frame.pushData { f2 with heap := pr.1 } pr.2)) := by
  cases op <;> first
    | exact Bool.noConfusion hbin
    | rfl

/-- C1 (corrected).  For every opcode of the binary-operator arm, the
dispatcher pops the LEFT-hand operand first — so after push(a); push(b)
the left operand is b, the last value pushed, and the result left on the
stack is b OP a, not a OP b.  The second conjunct fixes the Sub table
entry: lhs minus rhs on Numbers. -/
theorem C1_binop_order :
    (∀ (f : Frame) (op : Opcode) (bA aA : Addr) (S : List Addr),
      op.isBinary = true → fetchedOp f = op → f.stack = bA :: aA :: S →
      step f = .next (Frame.pushData
        { f with
          pc := f.pc + 1, cur_ins := op, stack := S,
          heap := (binOpEval f.heap op (f.heap.readVal bA) (f.heap.readVal aA)).1 }
        (binOpEval f.heap op (f.heap.readVal bA) (f.heap.readVal aA)).2)) ∧
    (∀ (h : Heap) (x y : ℚ),
      binOpEval h .Sub (.num x) (.num y) = (h, .num (x - y))) := by
  refine ⟨fun f op bA aA S hbin hc hs => ?_, fun h x y => rfl⟩
  unfold step
  rw [hc, stepOp_isBinary op (preFrame f) hbin]
  have hps : (preFrame f).stack = bA :: aA :: S := hs
  simp only [Frame.popv, hps]
  simp [Frame.pushData, preFrame, fetchedOp, hc]
  simpa [fetchedOp, List.getD_eq_getElem?_getD] using hc

/-- C1 witness: Sub on a stack holding Number 10 (pushed first) and
Number 3 (pushed second). -/
theorem C1_binop_order_witness :
    Opcode.isBinary .Sub = true ∧ fetchedOp c1wFr = .Sub ∧ c1wFr.stack = [2, 1] ∧
    step c1wFr = .next (Frame.pushData
      { c1wFr with
        pc := c1wFr.pc + 1, cur_ins := .Sub, stack := [],
        heap := (binOpEval c1wFr.heap .Sub (c1wFr.heap.readVal 2) (c1wFr.heap.readVal 1)).1 }
      (binOpEval c1wFr.heap .Sub (c1wFr.heap.readVal 2) (c1wFr.heap.readVal 1)).2) :=
  ⟨by decide, by decide, by decide,
    C1_binop_order.1 c1wFr .Sub 2 1 [] (by decide) (by decide) (by decide)⟩

/-- C1 counterexample.  The program LoadInt 10; LoadInt 3; Sub terminates
with the single value Number (-7) on the operand stack — not Number 7 as
the claim (and the specification's S1 scenario) states: the left-hand
operand of Sub is the value pushed second. -/
theorem C1_sub_counterexample :
    run 4 (initFrame c1prog) = .done c1fin ∧
    c1fin.stack = [3] ∧
    c1fin.heap.readVal 3 = ValueData.num (-7) ∧
    ¬ c1fin.heap.readVal 3 = ValueData.num 7 := by
  with_unfolding_all decide

/-- The declare-or-overwrite binding step always succeeds: when the name is
in the environment's own table, set_variable_in_scope overwrites it right
there; when it is not, declare_var inserts it. -/
theorem bindOne_ok (h : Heap) (envA : Addr) (name : String) (v : Addr) :
    ∃ h2, bindOne h envA name v = .ok h2 () := by
  unfold bindOne
  by_cases hd : var_declared h envA (.str name) = true
  · refine ⟨h.write envA (.obj { h.readObj envA with
      table := tableInsert h (eqFuel h) (h.readObj envA).table (.str name) v }), ?_⟩
    simp [set_variable_in_scope, eqFuel, hd]
  · refine ⟨h.write envA (.obj { h.readObj envA with
      table := (h.readObj envA).table ++ [(.str name, v)] }), ?_⟩
    simp [declare_var, hd]

/-- Binding the formal parameters always succeeds. -/
theorem bindFormals_ok (envA : Addr) (names : List String) :
    ∀ (h : Heap) (vs : List Addr), ∃ h2, bindFormals h envA names vs = .ok h2 () := by
  induction names with
  | nil => exact fun h vs => ⟨h, rfl⟩
  | cons n ns ih =>
    intro h vs
    cases vs with
    | nil =>
      obtain ⟨h2, hb⟩ := bindOne_ok (h.alloc (.val .undefined)).1 envA n (h.alloc (.val .undefined)).2
      obtain ⟨h3, hf⟩ := ih h2 []
      exact ⟨h3, by simp [bindFormals, hb, hf]⟩
    | cons v vrest =>
      obtain ⟨h2, hb⟩ := bindOne_ok h envA n v
      obtain ⟨h3, hf⟩ := ih h2 vrest
      exact ⟨h3, by simp [bindFormals, hb, hf]⟩

/-- The shared regular-callee entry sequence always succeeds, and its
result is exact: one saved state (five entries, constants on top) pushed
onto the save-stack, the callee pushed onto the active-functions stack,
the callee's code and constants installed, the operand and handler stacks
untouched, and pc/environment at the entry address with the captured
environment (or at the recorded yield position with the yield
environment). -/
theorem enterRegular_ok (f : Frame) (fnA : Addr) (rf : RegularFn) (args : List Addr)
    (thisV : Option Addr) :
    ∃ g, enterRegular f fnA rf args thisV = .ok g ∧
      g.exec_stack = ExecData.C f.constants :: ExecData.Pc f.pc :: ExecData.Env f.env ::
        ExecData.Code f.code :: ExecData.Stack f.stack :: f.exec_stack ∧
      g.funs = fnA :: f.funs ∧ g.code = rf.code ∧ g.constants = rf.constants ∧
      g.stack = f.stack ∧ g.exception_stack = f.exception_stack ∧
      g.pc = (match rf.yield_pos with | some p => p | none => rf.addr) ∧
      g.env = (match rf.yield_pos with | some _ => rf.yield_env | none => rf.environment) := by
  obtain ⟨h1, hbf⟩ := bindFormals_ok rf.environment rf.args f.heap args
  obtain ⟨h4, hb1⟩ := bindOne_ok
    ((h1.alloc (Cell.arr args)).1.alloc (Cell.val (.array (h1.alloc (Cell.arr args)).2))).1
    rf.environment "_args"
    ((h1.alloc (Cell.arr args)).1.alloc (Cell.val (.array (h1.alloc (Cell.arr args)).2))).2
  cases hyp : rf.yield_pos with
  | none =>
    cases thisV with
    | none =>
      obtain ⟨h6, hb2⟩ := bindOne_ok ((h4.alloc (Cell.obj ⟨none, []⟩)).1.alloc
        (Cell.val (.object (h4.alloc (Cell.obj ⟨none, []⟩)).2))).1 rf.environment "this"
        ((h4.alloc (Cell.obj ⟨none, []⟩)).1.alloc
          (Cell.val (.object (h4.alloc (Cell.obj ⟨none, []⟩)).2))).2
      refine ⟨{ f with
          code := rf.code, constants := rf.constants, pc := rf.addr, env := rf.environment,
          funs := fnA :: f.funs, heap := h6,
          exec_stack := ExecData.C f.constants :: ExecData.Pc f.pc :: ExecData.Env f.env ::
            ExecData.Code f.code :: ExecData.Stack f.stack :: f.exec_stack }, ?_, ?_⟩
      · simp [enterRegular, hyp, hbf, hb1, hb2, save_state]
      · simp [hyp]
    | some a =>
      obtain ⟨h6, hb2⟩ := bindOne_ok h4 rf.environment "this" a
      refine ⟨{ f with
          code := rf.code, constants := rf.constants, pc := rf.addr, env := rf.environment,
          funs := fnA :: f.funs, heap := h6,
          exec_stack := ExecData.C f.constants :: ExecData.Pc f.pc :: ExecData.Env f.env ::
            ExecData.Code f.code :: ExecData.Stack f.stack :: f.exec_stack }, ?_, ?_⟩
      · simp [enterRegular, hyp, hbf, hb1, hb2, save_state]
      · simp [hyp]
  | some pos =>
    cases thisV with
    | none =>
      obtain ⟨h6, hb2⟩ := bindOne_ok ((h4.alloc (Cell.obj ⟨none, []⟩)).1.alloc
        (Cell.val (.object (h4.alloc (Cell.obj ⟨none, []⟩)).2))).1 rf.environment "this"
        ((h4.alloc (Cell.obj ⟨none, []⟩)).1.alloc
          (Cell.val (.object (h4.alloc (Cell.obj ⟨none, []⟩)).2))).2
      refine ⟨{ f with
          code := rf.code, constants := rf.constants, pc := pos, env := rf.yield_env,
          funs := fnA :: f.funs, heap := h6,
          exec_stack := ExecData.C f.constants :: ExecData.Pc f.pc :: ExecData.Env f.env ::
            ExecData.Code f.code :: ExecData.Stack f.stack :: f.exec_stack }, ?_, ?_⟩
      · simp [enterRegular, hyp, hbf, hb1, hb2, save_state]
      · simp [hyp]
    | some a =>
      obtain ⟨h6, hb2⟩ := bindOne_ok h4 rf.environment "this" a
      refine ⟨{ f with
          code := rf.code, constants := rf.constants, pc := pos, env := rf.yield_env,
          funs := fnA :: f.funs, heap := h6,
          exec_stack := ExecData.C f.constants :: ExecData.Pc f.pc :: ExecData.Env f.env ::
            ExecData.Code f.code :: ExecData.Stack f.stack :: f.exec_stack }, ?_, ?_⟩
      · simp [enterRegular, hyp, hbf, hb1, hb2, save_state]
      · simp [hyp]

theorem coreEq_refl (f : Frame) : coreEq f f := ⟨rfl, rfl, rfl, rfl, rfl, rfl⟩

theorem coreEq_trans {f g k : Frame} (h1 : coreEq f g) (h2 : coreEq g k) : coreEq f k := by
  obtain ⟨q1, q2, q3, q4, q5, q6⟩ := h1
  obtain ⟨w1, w2, w3, w4, w5, w6⟩ := h2
  exact ⟨w1.trans q1, w2.trans q2, w3.trans q3, w4.trans q4, w5.trans q5, w6.trans q6⟩

/-- A successful restore_state consumed exactly one saved state: five
entries, constants on top. -/
theorem restore_state_spec (x y : Frame) (h : restore_state x = some y) :
    x.exec_stack = ExecData.C y.constants :: ExecData.Pc y.pc :: ExecData.Env y.env ::
      ExecData.Code y.code :: ExecData.Stack y.stack :: y.exec_stack ∧
    y.heap = x.heap ∧ y.funs = x.funs ∧ y.exception_stack = x.exception_stack := by
  unfold restore_state at h
  split at h
  · cases h
    next heq => exact ⟨heq, rfl, rfl, rfl⟩
  · cases h

/-- The ConstructArray fill loop pops and writes the array cell; a failing
pop leaves everything but stack and heap untouched. -/
theorem fillArray_core (arrA : Addr) (n : Nat) :
    ∀ f : Frame,
      (∀ g u, fillArray arrA n f = .ok g u → coreEq f g ∧ g.pc = f.pc) ∧
      (∀ g e, fillArray arrA n f = .fail g e → coreEq f g ∧ g.pc = f.pc) := by
  induction n with
  | zero =>
    refine fun f => ⟨fun g u h => ?_, fun g e h => ?_⟩
    · cases h; exact ⟨coreEq_refl f, rfl⟩
    · cases h
  | succ n ih =>
    refine fun f => ⟨fun g u h => ?_, fun g e h => ?_⟩ <;> unfold fillArray at h
    · cases hpop : f.popv with
      | fail f1 e1 => simp only [hpop] at h; cases h
      | ok f1 v =>
        simp only [hpop] at h
        obtain ⟨hc1, hp1, _, _, _⟩ := popv_ok_core f f1 v hpop
        obtain ⟨hc2, hp2⟩ := (ih _).1 g u h
        exact ⟨coreEq_trans hc1 hc2, hp2.trans hp1⟩
    · cases hpop : f.popv with
      | fail f1 e1 =>
        simp only [hpop] at h
        obtain ⟨hc1, hp1, _⟩ := popv_fail_core f f1 e1 hpop
        cases h
        exact ⟨hc1, hp1⟩
      | ok f1 v =>
        simp only [hpop] at h
        obtain ⟨hc1, hp1, _, _, _⟩ := popv_ok_core f f1 v hpop
        obtain ⟨hc2, hp2⟩ := (ih _).2 g e h
        exact ⟨coreEq_trans hc1 hc2, hp2.trans hp1⟩

/-- Total characterization of Call: it either enters a Regular callee —
pushing exactly one saved state and the callee onto the active-functions
stack — raises a routed error (stack underflow with exit code 1, or the
"function expected" runtime exception with exit code -1) that leaves the
core components untouched, or hands control to a host-native callee. -/
theorem execCall_cases (argc : Nat) (f : Frame) :
    (∃ g, execCall argc f = .ok g ∧ (∃ S, g.exec_stack =
        ExecData.C f.constants :: ExecData.Pc f.pc :: ExecData.Env f.env ::
          ExecData.Code f.code :: ExecData.Stack S :: f.exec_stack) ∧
      (∃ fnA, g.funs = fnA :: f.funs) ∧ g.exception_stack = f.exception_stack) ∨
    (∃ g e c, execCall argc f = .err g e c ∧ coreEq f g ∧ (c = 1 ∨ c = -1)) ∨
    (∃ g, execCall argc f = .hostCall g) := by
  cases hpop : f.popv with
  | fail f1 e1 =>
    exact Or.inr (Or.inl ⟨f1, e1, 1, by simp [execCall, hpop],
      (popv_fail_core f f1 e1 hpop).1, Or.inl rfl⟩)
  | ok f1 funV =>
    obtain ⟨hc1, hp1, hh1, _, _⟩ := popv_ok_core f f1 funV hpop
    cases hpop2 : f1.popv with
    | fail f2 e2 =>
      exact Or.inr (Or.inl ⟨f2, e2, 1, by simp [execCall, hpop, hpop2],
        coreEq_trans hc1 (popv_fail_core f1 f2 e2 hpop2).1, Or.inl rfl⟩)
    | ok f2 thisV =>
      obtain ⟨hc2, hp2, hh2, _, _⟩ := popv_ok_core f1 f2 thisV hpop2
      cases hpa : popArgs f2 argc with
      | fail f3 e3 =>
        exact Or.inr (Or.inl ⟨f3, e3, 1, by simp [execCall, hpop, hpop2, hpa],
          coreEq_trans (coreEq_trans hc1 hc2) ((popArgs_core argc f2).2 f3 e3 hpa).1,
          Or.inl rfl⟩)
      | ok f3 args =>
        obtain ⟨hc3, hp3, hh3, _⟩ := (popArgs_core argc f2).1 f3 args hpa
        have hcf3 : coreEq f f3 := coreEq_trans (coreEq_trans hc1 hc2) hc3
        have hpf3 : f3.pc = f.pc := (hp3.trans hp2).trans hp1
        cases hv : f3.heap.readVal funV
        case function fnA =>
          cases hfn : f3.heap.readFn fnA with
          | Native id =>
            exact Or.inr (Or.inr ⟨f3, by simp [execCall, hpop, hpop2, hpa, hv, hfn]⟩)
          | Regular rf =>
            obtain ⟨g, hok, hes, hfu, _, _, _, hex, _, _⟩ :=
              enterRegular_ok f3 fnA rf args (some thisV)
            obtain ⟨a1, a2, a3, a4, a5, a6⟩ := hcf3
            refine Or.inl ⟨g, by simp [execCall, hpop, hpop2, hpa, hv, hfn, hok],
              ⟨f3.stack, ?_⟩, ⟨fnA, by rw [hfu, a5]⟩, hex.trans a6⟩
            rw [hes, a1, a2, a3, a4, hpf3]
        all_goals exact Or.inr (Or.inl
          ⟨{ f3 with heap := (new_error f3.heap (-1) none "Runtime exception: function expected").1 },
            (new_error f3.heap (-1) none "Runtime exception: function expected").2, -1,
            by simp [execCall, hpop, hpop2, hpa, hv, throwRT],
            coreEq_trans hcf3 ⟨rfl, rfl, rfl, rfl, rfl, rfl⟩, Or.inr rfl⟩)

/-- Total characterization of Apply, of the same shape as Call's: the
argument vector comes from the popped Array value, and the errors are the
stack underflow (code 1) and the "Array expected in apply" / "function
expected" runtime exceptions (code -1). -/
theorem execApply_cases (f : Frame) :
    (∃ g, execApply f = .ok g ∧ (∃ S, g.exec_stack =
        ExecData.C f.constants :: ExecData.Pc f.pc :: ExecData.Env f.env ::
          ExecData.Code f.code :: ExecData.Stack S :: f.exec_stack) ∧
      (∃ fnA, g.funs = fnA :: f.funs) ∧ g.exception_stack = f.exception_stack) ∨
    (∃ g e c, execApply f = .err g e c ∧ coreEq f g ∧ (c = 1 ∨ c = -1)) ∨
    (∃ g, execApply f = .hostCall g) := by
  cases hpop : f.popv with
  | fail f1 e1 =>
    exact Or.inr (Or.inl ⟨f1, e1, 1, by simp [execApply, hpop],
      (popv_fail_core f f1 e1 hpop).1, Or.inl rfl⟩)
  | ok f1 funV =>
    obtain ⟨hc1, hp1, hh1, _, _⟩ := popv_ok_core f f1 funV hpop
    cases hpop2 : f1.popv with
    | fail f2 e2 =>
      exact Or.inr (Or.inl ⟨f2, e2, 1, by simp [execApply, hpop, hpop2],
        coreEq_trans hc1 (popv_fail_core f1 f2 e2 hpop2).1, Or.inl rfl⟩)
    | ok f2 argsV =>
      obtain ⟨hc2, hp2, hh2, _, _⟩ := popv_ok_core f1 f2 argsV hpop2
      have hcf2 : coreEq f f2 := coreEq_trans hc1 hc2
      have hpf2 : f2.pc = f.pc := hp2.trans hp1
      cases hv : f2.heap.readVal argsV
      case array arrA =>
        cases hfv : f2.heap.readVal funV
        case function fnA =>
          cases hfn : f2.heap.readFn fnA with
          | Native id =>
            exact Or.inr (Or.inr ⟨f2, by simp [execApply, hpop, hpop2, hv, hfv, hfn]⟩)
          | Regular rf =>
            obtain ⟨g, hok, hes, hfu, _, _, _, hex, _, _⟩ :=
              enterRegular_ok f2 fnA rf (f2.heap.readArr arrA) none
            obtain ⟨a1, a2, a3, a4, a5, a6⟩ := hcf2
            refine Or.inl ⟨g, by simp [execApply, hpop, hpop2, hv, hfv, hfn, hok],
              ⟨f2.stack, ?_⟩, ⟨fnA, by rw [hfu, a5]⟩, hex.trans a6⟩
            rw [hes, a1, a2, a3, a4, hpf2]
        all_goals exact Or.inr (Or.inl
          ⟨{ f2 with heap := (new_error f2.heap (-1) none "Runtime exception: function expected").1 },
            (new_error f2.heap (-1) none "Runtime exception: function expected").2, -1,
            by simp [execApply, hpop, hpop2, hv, hfv, throwRT],
            coreEq_trans hcf2 ⟨rfl, rfl, rfl, rfl, rfl, rfl⟩, Or.inr rfl⟩)
      all_goals exact Or.inr (Or.inl
        ⟨{ f2 with heap := (new_error f2.heap (-1) none "Runtime exception: Array expected in apply").1 },
          (new_error f2.heap (-1) none "Runtime exception: Array expected in apply").2, -1,
          by simp [execApply, hpop, hpop2, hv, throwRT],
          coreEq_trans hcf2 ⟨rfl, rfl, rfl, rfl, rfl, rfl⟩, Or.inr rfl⟩)

/-- Total characterization of the Return tail (after the return value has
been popped): it consumes one saved state and pops the active-functions
stack (ok), ends the executor on an empty save-stack (ret), or panics on a
malformed save-stack; it never raises a routed error. -/
theorem returnRestore_cases (f1 : Frame) (retA : Addr) :
    (∃ g, returnRestore f1 retA = .ok g ∧
      f1.exec_stack.length = g.exec_stack.length + 5 ∧
      g.funs = f1.funs.tail ∧ g.exception_stack = f1.exception_stack) ∨
    (∃ g, returnRestore f1 retA = .ret g ∧ g.exec_stack = [] ∧ f1.exec_stack = []) ∨
    returnRestore f1 retA = .fatal := by
  by_cases he : f1.exec_stack.isEmpty
  · have he2 := List.isEmpty_iff.mp he
    exact Or.inr (Or.inl ⟨f1, by simp [returnRestore, he], he2, he2⟩)
  · cases hre : restore_state f1 with
    | none => exact Or.inr (Or.inr (by simp [returnRestore, he, hre]))
    | some f2 =>
      obtain ⟨hshape, _, hfu, hxc⟩ := restore_state_spec f1 f2 hre
      have hlen : f1.exec_stack.length = f2.exec_stack.length + 5 := by rw [hshape]; simp
      cases hft : f2.funs with
      | nil =>
        refine Or.inl ⟨Frame.pushRef { f2 with funs := f2.funs.tail } retA,
          by simp [returnRestore, he, hre, hft], by simpa [Frame.pushRef] using hlen, ?_, ?_⟩
        · simp only [Frame.pushRef]
          rw [hfu]
        · simp only [Frame.pushRef]
          rw [hxc]
      | cons topF rest =>
        cases hfn : f2.heap.readFn topF with
        | Regular rf =>
          refine Or.inl ⟨Frame.pushRef { f2 with
              heap := f2.heap.write topF (.fn (.Regular { rf with yield_pos := none })),
              funs := f2.funs.tail } retA,
            by simp [returnRestore, he, hre, hft, hfn],
            by simpa [Frame.pushRef] using hlen, ?_, ?_⟩
          · simp only [Frame.pushRef]
            rw [hfu]
          · simp only [Frame.pushRef]
            rw [hxc]
        | Native id =>
          refine Or.inl ⟨Frame.pushRef { f2 with funs := f2.funs.tail } retA,
            by simp [returnRestore, he, hre, hft, hfn],
            by simpa [Frame.pushRef] using hlen, ?_, ?_⟩
          · simp only [Frame.pushRef]
            rw [hfu]
          · simp only [Frame.pushRef]
            rw [hxc]

/-- Total characterization of Return, lifted over the initial pop of the
return value (which touches only the operand stack or, when it is empty,
the heap). -/
theorem execReturn_cases (f : Frame) :
    (∃ g, execReturn f = .ok g ∧ f.exec_stack.length = g.exec_stack.length + 5 ∧
      g.funs = f.funs.tail ∧ g.exception_stack = f.exception_stack) ∨
    (∃ g, execReturn f = .ret g ∧ g.exec_stack = [] ∧ f.exec_stack = []) ∨
    execReturn f = .fatal := by
  cases hs : f.stack with
  | nil =>
    have h := returnRestore_cases { f with heap := (f.heap.alloc (.val .undefined)).1 }
      (f.heap.alloc (.val .undefined)).2
    simpa [execReturn, hs] using h
  | cons v rest =>
    have h := returnRestore_cases { f with stack := rest } v
    simpa [execReturn, hs] using h

/-- Total characterization of Yield: it records the resumption state into
the topmost active function, consumes one saved state, and leaves the
active-functions stack UNCHANGED (ok); raises a routed error (underflow,
code 1, or the "can not find function state" runtime exception, code -1);
or panics (Native top of the active stack, malformed save-stack). -/
theorem execYield_cases (f : Frame) :
    (∃ g, execYield f = .ok g ∧ f.exec_stack.length = g.exec_stack.length + 5 ∧
      g.funs = f.funs ∧ g.exception_stack = f.exception_stack) ∨
    (∃ g e c, execYield f = .err g e c ∧ coreEq f g ∧ (c = 1 ∨ c = -1)) ∨
    execYield f = .fatal := by
  cases hpop : f.popv with
  | fail f1 e1 =>
    exact Or.inr (Or.inl ⟨f1, e1, 1, by simp [execYield, hpop],
      (popv_fail_core f f1 e1 hpop).1, Or.inl rfl⟩)
  | ok f1 retA =>
    obtain ⟨hc1, hp1, hh1, hs1, _⟩ := popv_ok_core f f1 retA hpop
    obtain ⟨a1, a2, a3, a4, a5, a6⟩ := hc1
    cases hfs : f1.funs with
    | nil =>
      exact Or.inr (Or.inl
        ⟨{ f1 with heap := (new_error f1.heap (-1) none "Runtime exception: can not find function state").1 },
          (new_error f1.heap (-1) none "Runtime exception: can not find function state").2, -1,
          by simp [execYield, hpop, hfs, throwRT],
          ⟨a1, a2, a3, a4, a5, a6⟩, Or.inr rfl⟩)
    | cons topF rest =>
      cases hfn : f1.heap.readFn topF with
      | Native id => exact Or.inr (Or.inr (by simp [execYield, hpop, hfs, hfn]))
      | Regular rf =>
        cases hre : restore_state { f1 with heap := f1.heap.write topF (.fn (.Regular { rf with yield_pos := some f1.pc, yield_env := f1.env })) } with
        | none =>
          rw [hfs] at hre
          exact Or.inr (Or.inr (by simp [execYield, hpop, hfs, hfn, hre]))
        | some f3 =>
          obtain ⟨hshape, _, hfu3, hxc3⟩ := restore_state_spec _ f3 hre
          rw [hfs] at hre
          refine Or.inl ⟨f3.pushRef retA, by simp [execYield, hpop, hfs, hfn, hre], ?_, ?_, ?_⟩
          · have : f1.exec_stack.length = f3.exec_stack.length + 5 := by
              have := congrArg List.length hshape
              simpa [Frame.pushRef] using this
            rw [← a4]
            simpa [Frame.pushRef] using this
          · simp only [Frame.pushRef]
            rw [hfu3]
            exact a5
          · simp only [Frame.pushRef]
            rw [hxc3]
            exact a6

/-- The binary arm raises errors only from its two pops (exit code 1,
core components untouched) and never ends the executor. -/
theorem stepOp_binary_master (op : Opcode) (f : Frame) (hbin : op.isBinary = true) :
    (∀ g e c, stepOp op f = .err g e c → coreEq f g ∧ (c = 1 ∨ c = -1)) ∧
    (∀ g, stepOp op f = .ret g → g.exec_stack = []) := by
  rw [stepOp_isBinary op f hbin]
  constructor
  · intro g e c h
    cases hpop : f.popv with
    | fail f1 e1 =>
      simp only [hpop] at h
      obtain ⟨hc, _, _⟩ := popv_fail_core f f1 e1 hpop
      cases h
      exact ⟨hc, Or.inl rfl⟩
    | ok f1 v =>
      simp only [hpop] at h
      obtain ⟨hc, _, _, _, _⟩ := popv_ok_core f f1 v hpop
      cases hpop2 : f1.popv with
      | fail f2 e2 =>
        simp only [hpop2] at h
        obtain ⟨hc2, _, _⟩ := popv_fail_core f1 f2 e2 hpop2
        cases h
        exact ⟨coreEq_trans hc hc2, Or.inl rfl⟩
      | ok f2 v2 =>
        simp only [hpop2] at h
        cases h
  · intro g h
    cases hpop : f.popv with
    | fail f1 e1 => simp only [hpop] at h; cases h
    | ok f1 v =>
      simp only [hpop] at h
      cases hpop2 : f1.popv with
      | fail f2 e2 => simp only [hpop2] at h; cases h
      | ok f2 v2 => simp only [hpop2] at h; cases h

/-- The uniform per-instruction contract behind the exception machinery:
every routed error leaves environment, bytecode, constants, save-stack,
active-functions stack and handler stack exactly as they were when the
instruction began (only pc, operand stack and heap may differ at the
fault), and carries process exit code 1 (the catch! path of fallible
operations) or -1 (the throw! path of type errors); and the only
instruction that ends the executor (`ret`) is Return, on an empty
save-stack. -/
theorem stepOp_master (op : Opcode) (f : Frame) :
    (∀ g e c, stepOp op f = .err g e c → coreEq f g ∧ (c = 1 ∨ c = -1)) ∧
    (∀ g, stepOp op f = .ret g → g.exec_stack = []) := by
  cases op
  all_goals try exact stepOp_binary_master _ f rfl
  case LoadInt i => exact ⟨fun g e c h => (by cases h), fun g h => (by cases h)⟩
  case LoadTrue => exact ⟨fun g e c h => (by cases h), fun g h => (by cases h)⟩
  case LoadFalse => exact ⟨fun g e c h => (by cases h), fun g h => (by cases h)⟩
  case LoadNil => exact ⟨fun g e c h => (by cases h), fun g h => (by cases h)⟩
  case LoadUndef => exact ⟨fun g e c h => (by cases h), fun g h => (by cases h)⟩
  case NewObj => exact ⟨fun g e c h => (by cases h), fun g h => (by cases h)⟩
  case PushCatch a => exact ⟨fun g e c h => (by cases h), fun g h => (by cases h)⟩
  case PopCatch => exact ⟨fun g e c h => (by cases h), fun g h => (by cases h)⟩
  case Jump t => exact ⟨fun g e c h => (by cases h), fun g h => (by cases h)⟩
  case PushEnv => exact ⟨fun g e c h => (by cases h), fun g h => (by cases h)⟩
  case Label => exact ⟨fun g e c h => (by cases h), fun g h => (by cases h)⟩
  case BlockEnd => exact ⟨fun g e c h => (by cases h), fun g h => (by cases h)⟩
  case NewIter =>
    refine ⟨fun g e c h => ?_, fun g h => ?_⟩ <;> simp only [stepOp] at h <;> unfold execNewIter at h <;>
      cases hpop : f.popv
    case fail f1 e1 =>
      simp only [hpop] at h
      obtain ⟨hc, _, _⟩ := popv_fail_core f f1 e1 hpop
      cases h
      exact ⟨hc, Or.inl rfl⟩
    case ok f1 v =>
      simp only [hpop] at h
      obtain ⟨hc, _, _, _, _⟩ := popv_ok_core f f1 v hpop
      cases hv : f1.heap.readVal v <;> simp only [hv] at h
      case object a => cases h
      case array a => cases h
      case iterator a => cases h
      all_goals
        obtain ⟨hc2, _, _, hcn⟩ := throwRT_core f1 g _ e c h
        exact ⟨coreEq_trans hc hc2, Or.inr hcn⟩
    case fail f1 e1 => simp only [hpop] at h; cases h
    case ok f1 v =>
      simp only [hpop] at h
      cases hv : f1.heap.readVal v <;> simp only [hv] at h <;> cases h
  case IterHasNext =>
    refine ⟨fun g e c h => ?_, fun g h => ?_⟩ <;> simp only [stepOp] at h <;> unfold execIterHasNext at h <;>
      cases hpop : f.popv
    case fail f1 e1 =>
      simp only [hpop] at h
      obtain ⟨hc, _, _⟩ := popv_fail_core f f1 e1 hpop
      cases h
      exact ⟨hc, Or.inl rfl⟩
    case ok f1 v =>
      simp only [hpop] at h
      cases hv : f1.heap.readVal v <;> simp only [hv] at h <;> cases h
    case fail f1 e1 => simp only [hpop] at h; cases h
    case ok f1 v =>
      simp only [hpop] at h
      cases hv : f1.heap.readVal v <;> simp only [hv] at h <;> cases h
  case IterNext =>
    refine ⟨fun g e c h => ?_, fun g h => ?_⟩ <;> simp only [stepOp] at h <;> unfold execIterNext at h <;>
      cases hpop : f.popv
    case fail f1 e1 =>
      simp only [hpop] at h
      obtain ⟨hc, _, _⟩ := popv_fail_core f f1 e1 hpop
      cases h
      exact ⟨hc, Or.inl rfl⟩
    case ok f1 v =>
      simp only [hpop] at h
      cases hv : f1.heap.readVal v <;> simp only [hv] at h
      case iterator a =>
        cases hit : f1.heap.readIter a <;> simp only [hit] at h <;> cases h
      all_goals cases h
    case fail f1 e1 => simp only [hpop] at h; cases h
    case ok f1 v =>
      simp only [hpop] at h
      cases hv : f1.heap.readVal v <;> simp only [hv] at h
      case iterator a =>
        cases hit : f1.heap.readIter a <;> simp only [hit] at h <;> cases h
      all_goals cases h
  case LoadConst i =>
    refine ⟨fun g e c h => ?_, fun g h => ?_⟩ <;> simp only [stepOp] at h <;>
      split at h <;> cases h
  case LoadVar name =>
    refine ⟨fun g e c h => ?_, fun g h => ?_⟩ <;> simp only [stepOp] at h <;>
      cases hg : get_variable f.heap (eqFuel f.heap) f.env (.str name) <;>
        simp only [hg] at h <;>
      (try cases h) <;> exact ⟨⟨rfl, rfl, rfl, rfl, rfl, rfl⟩, Or.inl rfl⟩
  case DeclVar name =>
    refine ⟨fun g e c h => ?_, fun g h => ?_⟩ <;> simp only [stepOp] at h <;> unfold execDeclVar at h <;>
      cases hpop : f.popv
    case fail f1 e1 =>
      simp only [hpop] at h
      obtain ⟨hc, _, _⟩ := popv_fail_core f f1 e1 hpop
      cases h
      exact ⟨hc, Or.inl rfl⟩
    case ok f1 v =>
      simp only [hpop] at h
      obtain ⟨hc, _, _, _, _⟩ := popv_ok_core f f1 v hpop
      split at h <;> split at h <;>
        (cases h
         try exact ⟨coreEq_trans hc ⟨rfl, rfl, rfl, rfl, rfl, rfl⟩, Or.inl rfl⟩)
    case fail f1 e1 => simp only [hpop] at h; cases h
    case ok f1 v =>
      simp only [hpop] at h
      split at h <;> split at h <;> cases h
  case StoreVar name =>
    refine ⟨fun g e c h => ?_, fun g h => ?_⟩ <;> simp only [stepOp] at h <;> unfold execStoreVar at h <;>
      cases hpop : f.popv
    case fail f1 e1 =>
      simp only [hpop] at h
      obtain ⟨hc, _, _⟩ := popv_fail_core f f1 e1 hpop
      cases h
      exact ⟨hc, Or.inl rfl⟩
    case ok f1 v =>
      simp only [hpop] at h
      obtain ⟨hc, _, _, _, _⟩ := popv_ok_core f f1 v hpop
      split at h <;>
        (cases h
         try exact ⟨coreEq_trans hc ⟨rfl, rfl, rfl, rfl, rfl, rfl⟩, Or.inl rfl⟩)
    case fail f1 e1 => simp only [hpop] at h; cases h
    case ok f1 v =>
      simp only [hpop] at h
      split at h <;> cases h
  case Dup =>
    refine ⟨fun g e c h => ?_, fun g h => ?_⟩ <;> simp only [stepOp] at h <;>
      cases hs : f.stack <;> simp only [hs] at h <;> cases h
  case ConstructArray n =>
    constructor
    · intro g e c h
      simp only [stepOp] at h
      cases hfa : fillArray (f.heap.alloc (Cell.arr [])).2 n
          { f with heap := (f.heap.alloc (Cell.arr [])).1 } with
      | fail g1 e1 =>
        simp only [hfa] at h
        obtain ⟨hcore, _⟩ := (fillArray_core (f.heap.alloc (Cell.arr [])).2 n _).2 g1 e1 hfa
        cases h
        exact ⟨coreEq_trans ⟨rfl, rfl, rfl, rfl, rfl, rfl⟩ hcore, Or.inl rfl⟩
      | ok g1 v => simp only [hfa] at h; cases h
    · intro g h
      simp only [stepOp] at h
      cases hfa : fillArray (f.heap.alloc (Cell.arr [])).2 n
          { f with heap := (f.heap.alloc (Cell.arr [])).1 } <;>
        simp only [hfa] at h <;> cases h
  case Store =>
    refine ⟨fun g e c h => ?_, fun g h => ?_⟩ <;> simp only [stepOp] at h <;>
      cases hpop : f.popv
    case fail f1 e1 =>
      simp only [hpop] at h
      obtain ⟨hc, _, _⟩ := popv_fail_core f f1 e1 hpop
      cases h
      exact ⟨hc, Or.inl rfl⟩
    case ok f1 v =>
      simp only [hpop] at h
      obtain ⟨hc, _, _, _, _⟩ := popv_ok_core f f1 v hpop
      cases hpop2 : f1.popv
      case fail f2 e2 =>
        simp only [hpop2] at h
        obtain ⟨hc2, _, _⟩ := popv_fail_core f1 f2 e2 hpop2
        cases h
        exact ⟨coreEq_trans hc hc2, Or.inl rfl⟩
      case ok f2 v2 =>
        simp only [hpop2] at h
        obtain ⟨hc2, _, _, _, _⟩ := popv_ok_core f1 f2 v2 hpop2
        cases hpop3 : f2.popv
        case fail f3 e3 =>
          simp only [hpop3] at h
          obtain ⟨hc3, _, _⟩ := popv_fail_core f2 f3 e3 hpop3
          cases h
          exact ⟨coreEq_trans (coreEq_trans hc hc2) hc3, Or.inl rfl⟩
        case ok f3 v3 =>
          simp only [hpop3] at h
          obtain ⟨hc3, _, _, _, _⟩ := popv_ok_core f2 f3 v3 hpop3
          split at h <;>
            (cases h
             try exact ⟨coreEq_trans (coreEq_trans (coreEq_trans hc hc2) hc3)
               ⟨rfl, rfl, rfl, rfl, rfl, rfl⟩, Or.inl rfl⟩)
    case fail f1 e1 => simp only [hpop] at h; cases h
    case ok f1 v =>
      simp only [hpop] at h
      cases hpop2 : f1.popv
      case fail f2 e2 => simp only [hpop2] at h; cases h
      case ok f2 v2 =>
        simp only [hpop2] at h
        cases hpop3 : f2.popv
        case fail f3 e3 => simp only [hpop3] at h; cases h
        case ok f3 v3 =>
          simp only [hpop3] at h
          split at h <;> cases h
  case Load =>
    refine ⟨fun g e c h => ?_, fun g h => ?_⟩ <;> simp only [stepOp] at h <;>
      cases hpop : f.popv
    case fail f1 e1 =>
      simp only [hpop] at h
      obtain ⟨hc, _, _⟩ := popv_fail_core f f1 e1 hpop
      cases h
      exact ⟨hc, Or.inl rfl⟩
    case ok f1 v =>
      simp only [hpop] at h
      obtain ⟨hc, _, _, _, _⟩ := popv_ok_core f f1 v hpop
      cases hpop2 : f1.popv
      case fail f2 e2 =>
        simp only [hpop2] at h
        obtain ⟨hc2, _, _⟩ := popv_fail_core f1 f2 e2 hpop2
        cases h
        exact ⟨coreEq_trans hc hc2, Or.inl rfl⟩
      case ok f2 v2 =>
        simp only [hpop2] at h
        obtain ⟨hc2, _, _, _, _⟩ := popv_ok_core f1 f2 v2 hpop2
        split at h <;>
          (cases h
           try exact ⟨coreEq_trans (coreEq_trans hc hc2)
             ⟨rfl, rfl, rfl, rfl, rfl, rfl⟩, Or.inl rfl⟩)
    case fail f1 e1 => simp only [hpop] at h; cases h
    case ok f1 v =>
      simp only [hpop] at h
      cases hpop2 : f1.popv
      case fail f2 e2 => simp only [hpop2] at h; cases h
      case ok f2 v2 =>
        simp only [hpop2] at h
        split at h <;> cases h
  case Return =>
    refine ⟨fun g e c h => ?_, fun g h => ?_⟩ <;> simp only [stepOp] at h <;>
      rcases execReturn_cases f with ⟨g1, hok, _⟩ | ⟨g1, hret, hes, _⟩ | hf
    · rw [hok] at h; cases h
    · rw [hret] at h; cases h
    · rw [hf] at h; cases h
    · rw [hok] at h; cases h
    · rw [hret] at h; cases h; exact hes
    · rw [hf] at h; cases h
  case Yield =>
    refine ⟨fun g e c h => ?_, fun g h => ?_⟩ <;> simp only [stepOp] at h <;>
      rcases execYield_cases f with ⟨g1, hok, _⟩ | ⟨g1, e1, c1, herr, hcore, hcn⟩ | hf
    · rw [hok] at h; cases h
    · rw [herr] at h; cases h; exact ⟨hcore, hcn⟩
    · rw [hf] at h; cases h
    · rw [hok] at h; cases h
    · rw [herr] at h; cases h
    · rw [hf] at h; cases h
  case Throw =>
    refine ⟨fun g e c h => ?_, fun g h => ?_⟩ <;> simp only [stepOp] at h <;> unfold execThrow at h <;>
      cases hs : f.stack <;> simp only [hs] at h <;>
      cases hx : f.exception_stack <;> simp only [hx] at h <;> cases h
  case Apply =>
    refine ⟨fun g e c h => ?_, fun g h => ?_⟩ <;> simp only [stepOp] at h <;>
      rcases execApply_cases f with ⟨g1, hok, _⟩ | ⟨g1, e1, c1, herr, hcore, hcn⟩ | ⟨g1, hh⟩
    · rw [hok] at h; cases h
    · rw [herr] at h; cases h; exact ⟨hcore, hcn⟩
    · rw [hh] at h; cases h
    · rw [hok] at h; cases h
    · rw [herr] at h; cases h
    · rw [hh] at h; cases h
  case Call argc =>
    refine ⟨fun g e c h => ?_, fun g h => ?_⟩ <;> simp only [stepOp] at h <;>
      rcases execCall_cases argc f with ⟨g1, hok, _⟩ | ⟨g1, e1, c1, herr, hcore, hcn⟩ | ⟨g1, hh⟩
    · rw [hok] at h; cases h
    · rw [herr] at h; cases h; exact ⟨hcore, hcn⟩
    · rw [hh] at h; cases h
    · rw [hok] at h; cases h
    · rw [herr] at h; cases h
    · rw [hh] at h; cases h
  case JumpIf t =>
    refine ⟨fun g e c h => ?_, fun g h => ?_⟩ <;> simp only [stepOp] at h <;>
      cases hpop : f.popv
    case fail f1 e1 =>
      simp only [hpop] at h
      obtain ⟨hc, _, _⟩ := popv_fail_core f f1 e1 hpop
      cases h
      exact ⟨hc, Or.inl rfl⟩
    case ok f1 v =>
      simp only [hpop] at h
      split at h <;> cases h
    case fail f1 e1 => simp only [hpop] at h; cases h
    case ok f1 v =>
      simp only [hpop] at h
      split at h <;> cases h
  case JumpIfFalse t =>
    refine ⟨fun g e c h => ?_, fun g h => ?_⟩ <;> simp only [stepOp] at h <;>
      cases hpop : f.popv
    case fail f1 e1 =>
      simp only [hpop] at h
      obtain ⟨hc, _, _⟩ := popv_fail_core f f1 e1 hpop
      cases h
      exact ⟨hc, Or.inl rfl⟩
    case ok f1 v =>
      simp only [hpop] at h
      split at h <;> cases h
    case fail f1 e1 => simp only [hpop] at h; cases h
    case ok f1 v =>
      simp only [hpop] at h
      split at h <;> cases h
  case RefEq =>
    refine ⟨fun g e c h => ?_, fun g h => ?_⟩ <;> simp only [stepOp] at h <;>
      cases hpop : f.popv
    case fail f1 e1 =>
      simp only [hpop] at h
      obtain ⟨hc, _, _⟩ := popv_fail_core f f1 e1 hpop
      cases h
      exact ⟨hc, Or.inl rfl⟩
    case ok f1 v =>
      simp only [hpop] at h
      obtain ⟨hc, _, _, _, _⟩ := popv_ok_core f f1 v hpop
      cases hpop2 : f1.popv
      case fail f2 e2 =>
        simp only [hpop2] at h
        obtain ⟨hc2, _, _⟩ := popv_fail_core f1 f2 e2 hpop2
        cases h
        exact ⟨coreEq_trans hc hc2, Or.inl rfl⟩
      case ok f2 v2 => simp only [hpop2] at h; cases h
    case fail f1 e1 => simp only [hpop] at h; cases h
    case ok f1 v =>
      simp only [hpop] at h
      cases hpop2 : f1.popv <;> simp only [hpop2] at h <;> cases h
  case RefNeq =>
    refine ⟨fun g e c h => ?_, fun g h => ?_⟩ <;> simp only [stepOp] at h <;>
      cases hpop : f.popv
    case fail f1 e1 =>
      simp only [hpop] at h
      obtain ⟨hc, _, _⟩ := popv_fail_core f f1 e1 hpop
      cases h
      exact ⟨hc, Or.inl rfl⟩
    case ok f1 v =>
      simp only [hpop] at h
      obtain ⟨hc, _, _, _, _⟩ := popv_ok_core f f1 v hpop
      cases hpop2 : f1.popv
      case fail f2 e2 =>
        simp only [hpop2] at h
        obtain ⟨hc2, _, _⟩ := popv_fail_core f1 f2 e2 hpop2
        cases h
        exact ⟨coreEq_trans hc hc2, Or.inl rfl⟩
      case ok f2 v2 => simp only [hpop2] at h; cases h
    case fail f1 e1 => simp only [hpop] at h; cases h
    case ok f1 v =>
      simp only [hpop] at h
      cases hpop2 : f1.popv <;> simp only [hpop2] at h <;> cases h
  case InitEnv =>
    refine ⟨fun g e c h => ?_, fun g h => ?_⟩ <;> simp only [stepOp] at h <;> unfold execInitEnv at h <;>
      cases hpop : f.popv
    case fail f1 e1 =>
      simp only [hpop] at h
      obtain ⟨hc, _, _⟩ := popv_fail_core f f1 e1 hpop
      cases h
      exact ⟨hc, Or.inl rfl⟩
    case ok f1 v =>
      simp only [hpop] at h
      obtain ⟨hc, _, _, _, _⟩ := popv_ok_core f f1 v hpop
      cases hv : f1.heap.readVal v <;> simp only [hv] at h
      case function a =>
        cases hfn : f1.heap.readFn a <;> simp only [hfn] at h <;> cases h
      all_goals
        obtain ⟨hc2, _, _, hcn⟩ := throwRT_core f1 g _ e c h
        exact ⟨coreEq_trans hc hc2, Or.inr hcn⟩
    case fail f1 e1 => simp only [hpop] at h; cases h
    case ok f1 v =>
      simp only [hpop] at h
      cases hv : f1.heap.readVal v <;> simp only [hv] at h
      case function a =>
        cases hfn : f1.heap.readFn a <;> simp only [hfn] at h <;> cases h
      all_goals cases h
  case PopEnv =>
    refine ⟨fun g e c h => ?_, fun g h => ?_⟩ <;> simp only [stepOp] at h <;>
      cases hp : f.pop_env <;> simp only [hp] at h <;> cases h
  case Not =>
    refine ⟨fun g e c h => ?_, fun g h => ?_⟩ <;> simp only [stepOp] at h <;>
      cases hpop : f.popv
    case fail f1 e1 =>
      simp only [hpop] at h
      obtain ⟨hc, _, _⟩ := popv_fail_core f f1 e1 hpop
      cases h
      exact ⟨hc, Or.inl rfl⟩
    case ok f1 v => simp only [hpop] at h; cases h
    case fail f1 e1 => simp only [hpop] at h; cases h
    case ok f1 v => simp only [hpop] at h; cases h
  case Neg =>
    refine ⟨fun g e c h => ?_, fun g h => ?_⟩ <;> simp only [stepOp] at h <;>
      cases hpop : f.popv
    case fail f1 e1 =>
      simp only [hpop] at h
      obtain ⟨hc, _, _⟩ := popv_fail_core f f1 e1 hpop
      cases h
      exact ⟨hc, Or.inl rfl⟩
    case ok f1 v => simp only [hpop] at h; cases h
    case fail f1 e1 => simp only [hpop] at h; cases h
    case ok f1 v => simp only [hpop] at h; cases h


/-- The catch!/throw! transfer as the loop body performs it: a routed
error with a handler installed continues at the handler with the error
value pushed; without one the process exits with the carried code; the
carried code is 1 or -1 and the fault leaves the core frame components
untouched. -/
theorem step_err_spec (f g : Frame) (e : ValueData) (c : Int)
    (herr : stepOp (fetchedOp f) (preFrame f) = .err g e c) :
    (∀ loc rest, g.exception_stack = loc :: rest →
      step f = .next (Frame.pushData { g with pc := loc, exception_stack := rest } e)) ∧
    (g.exception_stack = [] → step f = .exitP c) ∧
    coreEq (preFrame f) g ∧ (c = 1 ∨ c = -1) := by
  have hm := (stepOp_master (fetchedOp f) (preFrame f)).1 g e c herr
  refine ⟨fun loc rest hx => ?_, fun hx => ?_, hm.1, hm.2⟩
  · simp only [step, herr, hx]
  · simp only [step, herr, hx]

/-- The Throw arm's own transfer: with a handler installed it continues
at the handler address with the popped cell pushed back, changing only pc
and the handler stack. -/
theorem execThrow_caught (f1 : Frame) (v : Addr) (rest2 : List Addr)
    (loc2 : Nat) (rest3 : List Nat)
    (hs : f1.stack = v :: rest2) (hx : f1.exception_stack = loc2 :: rest3) :
    execThrow f1 = .ok { f1 with pc := loc2, exception_stack := rest3 } := by
  simp only [execThrow, hs, hx]

/-- C3.  The save-stack discipline of the call protocol: Call and Apply
each push exactly one saved state (five entries) and push the callee onto
the active-functions stack; Return consumes one saved state and pops the
active-functions stack; Yield consumes one saved state but leaves the
active-functions stack UNCHANGED (the source never pops `funs` on Yield);
and the Return that ends the executor happens exactly on an empty
save-stack. -/
theorem C3_call_return_yield (f : Frame) (argc : Nat) :
    (∀ g, execCall argc f = .ok g →
      g.exec_stack.length = f.exec_stack.length + 5 ∧ ∃ fnA, g.funs = fnA :: f.funs) ∧
    (∀ g, execApply f = .ok g →
      g.exec_stack.length = f.exec_stack.length + 5 ∧ ∃ fnA, g.funs = fnA :: f.funs) ∧
    (∀ g, execReturn f = .ok g →
      f.exec_stack.length = g.exec_stack.length + 5 ∧ g.funs = f.funs.tail) ∧
    (∀ g, execYield f = .ok g →
      f.exec_stack.length = g.exec_stack.length + 5 ∧ g.funs = f.funs) ∧
    (∀ g, execReturn f = .ret g → g.exec_stack = [] ∧ f.exec_stack = []) := by
  refine ⟨fun g hg => ?_, fun g hg => ?_, fun g hg => ?_, fun g hg => ?_, fun g hg => ?_⟩
  · rcases execCall_cases argc f with ⟨g0, hok, ⟨S, hes⟩, ⟨fnA, hfu⟩, _⟩ |
      ⟨g0, e0, c0, herr, _, _⟩ | ⟨g0, hh⟩
    · rw [hok] at hg
      cases hg
      exact ⟨by simp [hes], fnA, hfu⟩
    · rw [herr] at hg
      cases hg
    · rw [hh] at hg
      cases hg
  · rcases execApply_cases f with ⟨g0, hok, ⟨S, hes⟩, ⟨fnA, hfu⟩, _⟩ |
      ⟨g0, e0, c0, herr, _, _⟩ | ⟨g0, hh⟩
    · rw [hok] at hg
      cases hg
      exact ⟨by simp [hes], fnA, hfu⟩
    · rw [herr] at hg
      cases hg
    · rw [hh] at hg
      cases hg
  · rcases execReturn_cases f with ⟨g0, hok, hlen, hfu, _⟩ | ⟨g0, hret, _, _⟩ | hf
    · rw [hok] at hg
      cases hg
      exact ⟨hlen, hfu⟩
    · rw [hret] at hg
      cases hg
    · rw [hf] at hg
      cases hg
  · rcases execYield_cases f with ⟨g0, hok, hlen, hfu, _⟩ | ⟨g0, e0, c0, herr, _, _⟩ | hf
    · rw [hok] at hg
      cases hg
      exact ⟨hlen, hfu⟩
    · rw [herr] at hg
      cases hg
    · rw [hf] at hg
      cases hg
  · rcases execReturn_cases f with ⟨g0, hok, _, _, _⟩ | ⟨g0, hret, hes, hfs⟩ | hf
    · rw [hok] at hg
      cases hg
    · rw [hret] at hg
      cases hg
      exact ⟨hes, hfs⟩
    · rw [hf] at hg
      cases hg

/-- C3 witness: the top-level Return of the one-instruction program ends
the executor with an empty save-stack. -/
theorem C3_call_return_yield_witness :
    execReturn c3wFr = OpRes.ret (opResFrame (execReturn c3wFr)) ∧
    (opResFrame (execReturn c3wFr)).exec_stack = [] :=
  ⟨by with_unfolding_all decide,
   ((C3_call_return_yield c3wFr 0).2.2.2.2 (opResFrame (execReturn c3wFr))
     (by with_unfolding_all decide)).1⟩

/-- C3 counterexample: a program that calls a generator which yields once
terminates normally (the executor returns, save-stack empty) with the
generator STILL on the active-functions stack — Yield does not pop
`funs`, so the claimed "funs is empty at normal termination" fails. -/
theorem C3_funs_counterexample :
    run 5 c3genFr = RunResult.done c3fin ∧ c3fin.exec_stack = [] ∧
    c3fin.funs = [2] ∧ c3fin.funs ≠ [] := by
  with_unfolding_all decide

/-- C4.  Apply on a Regular callee is the same callee-entry sequence as
Call (enterRegular), with the argument vector read from the popped Array
value and no separate `this` operand: the entry pushes one saved state,
pushes the callee, installs its code, constants, entry pc and captured
environment.  (The `this` installed for the none-operand path is a fresh
empty Object, not Nil — see the counterexample.) -/
theorem C4_apply_regular (f f1 f2 : Frame) (funV argsV arrA fnA : Addr) (rf : RegularFn)
    (h1 : f.popv = .ok f1 funV) (h2 : f1.popv = .ok f2 argsV)
    (hv : f2.heap.readVal argsV = .array arrA)
    (hfv : f2.heap.readVal funV = .function fnA)
    (hfn : f2.heap.readFn fnA = .Regular rf) :
    execApply f = enterRegular f2 fnA rf (f2.heap.readArr arrA) none ∧
    ∃ g, execApply f = .ok g ∧
      g.exec_stack = ExecData.C f2.constants :: ExecData.Pc f2.pc :: ExecData.Env f2.env ::
        ExecData.Code f2.code :: ExecData.Stack f2.stack :: f2.exec_stack ∧
      g.funs = fnA :: f2.funs ∧ g.code = rf.code ∧ g.constants = rf.constants ∧
      g.stack = f2.stack ∧ g.exception_stack = f2.exception_stack ∧
      g.pc = (match rf.yield_pos with | some p => p | none => rf.addr) ∧
      g.env = (match rf.yield_pos with | some _ => rf.yield_env | none => rf.environment) := by
  have heq : execApply f = enterRegular f2 fnA rf (f2.heap.readArr arrA) none := by
    simp only [execApply, h1, h2, hv, hfv, hfn]
  obtain ⟨g, hok, hrest⟩ := enterRegular_ok f2 fnA rf (f2.heap.readArr arrA) none
  exact ⟨heq, g, heq.trans hok, hrest⟩

/-- C4 witness: the Apply frame with an empty argument Array reduces to
enterRegular of its Regular callee with the Array's elements and no
`this` operand. -/
theorem C4_apply_regular_witness :
    execApply c4Fr = enterRegular { c4Fr with stack := ([] : List Addr) } 2
      ⟨1, [Opcode.Label], 0, none, [], 0, []⟩
      ({ c4Fr with stack := ([] : List Addr) }.heap.readArr 4) none :=
  (C4_apply_regular c4Fr { c4Fr with stack := [5] } { c4Fr with stack := ([] : List Addr) }
    3 5 4 2 ⟨1, [Opcode.Label], 0, none, [], 0, []⟩
    (by with_unfolding_all decide) (by with_unfolding_all decide)
    (by with_unfolding_all decide) (by with_unfolding_all decide)
    (by with_unfolding_all decide)).1

/-- C4 counterexample: after Apply of a Regular function the `this`
binding in the callee's captured environment references a fresh empty
Object (cell 8), not Nil — the dispatcher passes
new_ref(Object(new_object())) for Apply's `this`, never Nil. -/
theorem C4_this_counterexample :
    c4g.env = 1 ∧
    (c4g.heap.readObj 1).table = [(.str "_args", 7), (.str "this", 9)] ∧
    c4g.heap.readVal 9 = .object 8 ∧ c4g.heap.readVal 9 ≠ .nil := by
  with_unfolding_all decide

/-- C5.  The DeclVar discipline: when the name is already in the current
scope's own table the dispatcher OVERWRITES the slot (set_variable_in_scope
on the guarded path) and raises no error; when it is absent the popped
value is inserted into the scope's own table; the DuplicateDeclaration
error ("Variable 'k' already declared") lives in declare_var, which the
DeclVar arm only reaches on the undeclared path — so it is never raised
by DeclVar. -/
theorem C5_declvar_discipline (name : String) (f f1 : Frame) (v : Addr)
    (hpop : f.popv = .ok f1 v) :
    (var_declared f1.heap f1.env (.str name) = true →
      execDeclVar name f = .ok { f1 with heap := f1.heap.write f1.env (.obj { f1.heap.readObj f1.env with table := tableInsert f1.heap (eqFuel f1.heap) (f1.heap.readObj f1.env).table (.str name) v }) }) ∧
    (var_declared f1.heap f1.env (.str name) = false →
      execDeclVar name f = .ok { f1 with heap := f1.heap.write f1.env (.obj { f1.heap.readObj f1.env with table := (f1.heap.readObj f1.env).table ++ [(.str name, v)] }) }) ∧
    (∀ (h : Heap) (scope : Addr) (k : ValueData) (w : Addr),
      var_declared h scope k = true →
      declare_var h scope k w =
        .err (new_error h 0 none
            ("Variable '" ++ vdStr h (eqFuel h) k ++ "' already declared")).1
          (new_error h 0 none
            ("Variable '" ++ vdStr h (eqFuel h) k ++ "' already declared")).2) := by
  refine ⟨fun hd => ?_, fun hd => ?_, fun h scope k w hd => ?_⟩
  · simp only [execDeclVar, hpop, hd, if_true]
    simp [set_variable_in_scope, eqFuel, hd]
  · simp only [execDeclVar, hpop, hd]
    simp [declare_var, hd]
  · simp [declare_var, hd]

/-- C5 witness: DeclVar "x" with "x" already bound in the current scope
overwrites the slot and succeeds. -/
theorem C5_declvar_witness :
    var_declared c5wFrPop.heap c5wFrPop.env (.str "x") = true ∧
    execDeclVar "x" c5wFr = .ok { c5wFrPop with heap := c5wFrPop.heap.write c5wFrPop.env (.obj { c5wFrPop.heap.readObj c5wFrPop.env with table := tableInsert c5wFrPop.heap (eqFuel c5wFrPop.heap) (c5wFrPop.heap.readObj c5wFrPop.env).table (.str "x") 2 }) } :=
  ⟨by with_unfolding_all decide,
   (C5_declvar_discipline "x" c5wFr c5wFrPop 2
     (by with_unfolding_all decide)).1 (by with_unfolding_all decide)⟩

/-- C5 counterexample: declaring "x" twice in the same scope terminates
normally (exit code 0) with "x" rebound to the second value — no
DuplicateDeclaration error is raised through the exception machinery. -/
theorem C5_overwrite_counterexample :
    exitCodeOf (run 5 (initFrame c5prog)) = some 0 ∧
    get_variable c5fin.heap (eqFuel c5fin.heap) c5fin.env (.str "x") = .ok c5fin.heap 2 ∧
    c5fin.heap.readVal 2 = .num 2 := by
  with_unfolding_all decide

/-- C6.  Exit codes: falling past the end of the code is a normal return
(exit 0); an uncaught routed error exits with the code recorded at the
raise site, which is 1 (catch! path: stack underflow, undeclared
variable, ...) or -1 (throw! path: runtime type exceptions) — NOT 1 for
every operation error; the explicit Throw opcode exits 1 (not -1) when no
handler is installed.  Concretely an uncaught stack underflow exits 1 and
an uncaught "iterator expected" type error exits -1. -/
theorem C6_exit_codes :
    (∀ (f : Frame) (n : Nat), f.code.length ≤ f.pc →
      exitCodeOf (run (n+1) f) = some 0) ∧
    (∀ f g e c, stepOp (fetchedOp f) (preFrame f) = .err g e c →
      g.exception_stack = [] → step f = .exitP c ∧ (c = 1 ∨ c = -1)) ∧
    (∀ f : Frame, f.exception_stack = [] → execThrow f = .exited 1) ∧
    exitCodeOf (run 1 c6wFr) = some 1 ∧
    exitCodeOf (run 2 (initFrame [.LoadNil, .NewIter])) = some (-1) := by
  refine ⟨fun f n h => ?_, fun f g e c herr hx => ?_, fun f hx => ?_, ?_, ?_⟩
  · simp [run, Nat.not_lt.mpr h, exitCodeOf]
  · obtain ⟨_, hexit, _, hcn⟩ := step_err_spec f g e c herr
    exact ⟨hexit hx, hcn⟩
  · cases hs : f.stack <;> simp only [execThrow, hs, hx]
  · with_unfolding_all decide
  · with_unfolding_all decide

/-- C6 witness: the uncaught stack underflow of a bare Sub exits the
process with code 1. -/
theorem C6_exit_codes_witness :
    step c6wFr = StepOut.exitP (opResCode c6wRes) :=
  (C6_exit_codes.2.1 c6wFr (opResFrame c6wRes) (opResErr c6wRes) (opResCode c6wRes)
    (by with_unfolding_all decide) (by with_unfolding_all decide)).1

/-- C6 counterexample: an uncaught explicit Throw exits the process with
code 1, not the claimed -1. -/
theorem C6_throw_counterexample :
    exitCodeOf (run 2 (initFrame [.LoadInt 7, .Throw])) = some 1 ∧ (1 : Int) ≠ -1 := by
  with_unfolding_all decide

/-- C7.  The transfer is exact for every error routed through the
catch!/throw! machinery: with a handler installed the pc becomes exactly
the popped handler address and the error value is pushed (in a fresh
cell) on top of the operand stack as it was at the fault, whatever the
faulting instruction; the Throw opcode performs the same transfer itself,
pushing the thrown cell back.  (Array out-of-range writes are NOT routed:
they assert in the source — see the counterexample.) -/
theorem C7_handler_transfer (f g : Frame) (e : ValueData) (c : Int)
    (loc : Nat) (rest : List Nat)
    (herr : stepOp (fetchedOp f) (preFrame f) = .err g e c)
    (hx : g.exception_stack = loc :: rest) :
    step f = .next (Frame.pushData { g with pc := loc, exception_stack := rest } e) ∧
    (nextOf (step f)).pc = loc ∧
    (nextOf (step f)).stack = g.heap.length :: g.stack ∧
    (nextOf (step f)).heap.readVal g.heap.length = e ∧
    (∀ f1 v rest2 loc2 rest3, f1.stack = v :: rest2 →
      f1.exception_stack = loc2 :: rest3 →
      execThrow f1 = .ok { f1 with pc := loc2, exception_stack := rest3 }) := by
  obtain ⟨hnext, _, _, _⟩ := step_err_spec f g e c herr
  have hst := hnext loc rest hx
  refine ⟨hst, ?_, ?_, ?_, execThrow_caught⟩
  · rw [hst]
    simp [nextOf, Frame.pushData]
  · rw [hst]
    simp [nextOf, Frame.pushData, Heap.alloc]
  · rw [hst]
    simp only [nextOf, Frame.pushData]
    exact Heap.readVal_alloc g.heap e

/-- C7 witness: the stack underflow of a Sub with a handler installed at
address 5 transfers to pc 5 with the error value pushed. -/
theorem C7_handler_transfer_witness :
    step c7wFr = StepOut.next
      (Frame.pushData { opResFrame c7wRes with pc := 5, exception_stack := [] }
        (opResErr c7wRes)) :=
  (C7_handler_transfer c7wFr (opResFrame c7wRes) (opResErr c7wRes) (opResCode c7wRes) 5 []
    (by with_unfolding_all decide) (by with_unfolding_all decide)).1

/-- C7 counterexample: an out-of-range array Store panics the process
(assert in SetGet) even though a handler is installed — the fault is
never routed to the handler. -/
theorem C7_array_oob_counterexample :
    c7Fr2.exception_stack = [9] ∧ run 3 c7Fr = RunResult.panicked := by
  with_unfolding_all decide

/-- C9.  A caught fault resumes at the handler with only pc and the
operand stack changed: the continuation frame keeps the fault frame's
environment, bytecode, constants, save-stack and active-functions stack,
which in turn equal the pre-fault frame's — so a failure inside a callee
resumes at the handler with the callee's environment and bytecode still
installed; the Throw transfer likewise changes only pc and the handler
stack. -/
theorem C9_handler_preserves (f g : Frame) (e : ValueData) (c : Int)
    (loc : Nat) (rest : List Nat)
    (herr : stepOp (fetchedOp f) (preFrame f) = .err g e c)
    (hx : g.exception_stack = loc :: rest) :
    (∃ k, step f = .next k ∧ k.pc = loc ∧ k.stack = g.heap.length :: g.stack ∧
      k.env = g.env ∧ k.code = g.code ∧ k.constants = g.constants ∧
      k.exec_stack = g.exec_stack ∧ k.funs = g.funs ∧ k.exception_stack = rest ∧
      k.env = f.env ∧ k.code = f.code ∧ k.constants = f.constants ∧
      k.exec_stack = f.exec_stack ∧ k.funs = f.funs) ∧
    (∀ f1 v rest2 loc2 rest3, f1.stack = v :: rest2 →
      f1.exception_stack = loc2 :: rest3 →
      execThrow f1 = .ok { f1 with pc := loc2, exception_stack := rest3 } ∧
      { f1 with pc := loc2, exception_stack := rest3 }.env = f1.env ∧
      { f1 with pc := loc2, exception_stack := rest3 }.code = f1.code ∧
      { f1 with pc := loc2, exception_stack := rest3 }.constants = f1.constants ∧
      { f1 with pc := loc2, exception_stack := rest3 }.exec_stack = f1.exec_stack ∧
      { f1 with pc := loc2, exception_stack := rest3 }.funs = f1.funs ∧
      { f1 with pc := loc2, exception_stack := rest3 }.stack = f1.stack) := by
  obtain ⟨hnext, _, hcore, _⟩ := step_err_spec f g e c herr
  obtain ⟨a1, a2, a3, a4, a5, _⟩ := hcore
  refine ⟨⟨Frame.pushData { g with pc := loc, exception_stack := rest } e,
    hnext loc rest hx, ?_, ?_, ?_, ?_, ?_, ?_, ?_, ?_, ?_, ?_, ?_, ?_, ?_⟩,
    fun f1 v rest2 loc2 rest3 hs hx2 =>
      ⟨execThrow_caught f1 v rest2 loc2 rest3 hs hx2, rfl, rfl, rfl, rfl, rfl, rfl⟩⟩
  · simp [Frame.pushData]
  · simp [Frame.pushData, Heap.alloc]
  · simp [Frame.pushData]
  · simp [Frame.pushData]
  · simp [Frame.pushData]
  · simp [Frame.pushData]
  · simp [Frame.pushData]
  · simp [Frame.pushData]
  · simpa [Frame.pushData] using a1
  · simpa [Frame.pushData] using a2
  · simpa [Frame.pushData] using a3
  · simpa [Frame.pushData] using a4
  · simpa [Frame.pushData] using a5

/-- C9 witness: the undeclared-variable fault of LoadVar "q" with a
handler at 3 resumes at pc 3 with environment, bytecode, constants,
save-stack and active-functions stack unchanged. -/
theorem C9_handler_preserves_witness :
    ∃ k, step c9wFr = StepOut.next k ∧ k.pc = 3 ∧ k.env = c9wFr.env ∧
      k.code = c9wFr.code ∧ k.constants = c9wFr.constants ∧
      k.exec_stack = c9wFr.exec_stack ∧ k.funs = c9wFr.funs := by
  obtain ⟨⟨k, h1, h2, _, _, _, _, _, _, _, h10, h11, h12, h13, h14⟩, _⟩ :=
    C9_handler_preserves c9wFr (opResFrame c9wRes) (opResErr c9wRes) (opResCode c9wRes) 3 []
      (by with_unfolding_all decide) (by with_unfolding_all decide)
  exact ⟨k, h1, h2, h10, h11, h12, h13, h14⟩


end JazzVM
